import Mathlib

/-!
# The input validator of `headers/validation.h`

A shallow embedding of the `Validator` class and of the part of the C++ stream
library it calls.

Conventions of the embedding.

* A stream is a sequence of bytes; a byte is written as the `Char` with that
  code point.  `int_type` (a byte or end of file) is `Option Char`.
* `char` is the signed 8-bit type of the x86-64 ABI, so converting the
  `int_type` value for end of file (-1) to `char` gives the byte `0xFF`, and a
  `char` holding `0xFF` compares equal to `char_traits<char>::eof()`.
* The classic "C" locale is in force: `isspace` is true of the six ASCII
  whitespace characters, `tolower` changes `A`..`Z` only.
* `exit` is modelled by the result `Outcome.exit`, which carries the exit status
  and everything written to `cout` and `cerr`.
* The constructor executes `in >> noskipws` exactly when `ws` is set and nothing
  changes the flag afterwards; the formatted extractors therefore take the
  `skipws` format flag as an argument, and the class passes `!ws`.
-/

namespace Validation

/-! ## The stream library -/

/-- `isspace` in the "C" locale: space, `\t`, `\n`, `\v`, `\f`, `\r`. -/
def isspace (c : Char) : Bool :=
  c == ' ' || c == '\t' || c == '\n' || c == '\x0b' || c == '\x0c' || c == '\r'

/-- `tolower` in the "C" locale. -/
def tolower (c : Char) : Char :=
  if 'A' ≤ c ∧ c ≤ 'Z' then Char.ofNat (c.toNat + 32) else c

/-- Conversion of an `int_type` to `char`: end of file (-1) becomes the byte `0xFF`. -/
def to_char_type : Option Char → Char
  | none => '\xff'
  | some c => c

/-- Comparison `c == char_traits<char>::eof()` for a `char` c, promoted to `int`:
true exactly of the byte `0xFF`, whose `char` value is -1. -/
def eq_eof (c : Char) : Bool := c == '\xff'

/-- An input stream: the characters not yet extracted and two of the state bits
(`badbit` is never set by the operations used here). -/
structure IStream where
  buf : List Char
  eofbit : Bool
  failbit : Bool
deriving DecidableEq, Repr

namespace IStream

/-- A stream over the given characters on which nothing has been read yet. -/
def fresh (cs : List Char) : IStream := ⟨cs, false, false⟩

/-- Member `good()`. -/
def good (s : IStream) : Bool := !s.eofbit && !s.failbit

/-- Member `eof()`. -/
def eof (s : IStream) : Bool := s.eofbit

/-- Member `fail()`; `if(in >> x)` tests its negation. -/
def fail (s : IStream) : Bool := s.failbit

/-- The `sentry` every input function constructs first.  `skip` says whether leading
whitespace is skipped (formatted input with the `skipws` flag set).  A stream that is
not good gets `failbit`; so does one that ends while whitespace is skipped. -/
def sentry (s : IStream) (skip : Bool) : Bool × IStream :=
  if s.good then
    if skip then
      match s.buf.dropWhile isspace with
      | [] => (false, ⟨[], true, true⟩)
      | c :: rest => (true, ⟨c :: rest, s.eofbit, s.failbit⟩)
    else (true, s)
  else (false, ⟨s.buf, s.eofbit, true⟩)

/-- Formatted extraction `in >> c` of one `char`.  The variable keeps its old value
`c` when nothing is extracted. -/
def extract_char (s : IStream) (skipws : Bool) (c : Char) : Char × IStream :=
  match s.sentry skipws with
  | (false, s1) => (c, s1)
  | (true, s1) =>
    match s1.buf with
    | [] => (c, ⟨[], true, true⟩)
    | b :: rest => (b, ⟨rest, s1.eofbit, s1.failbit⟩)

/-- Formatted extraction `in >> str` of a string: the characters up to the next
whitespace character or the end of the stream.  `eofbit` is set when the end stops
the extraction, `failbit` when no character was extracted.  The variable keeps its
old value `str` when the sentry fails. -/
def extract_string (s : IStream) (skipws : Bool) (str : String) : String × IStream :=
  match s.sentry skipws with
  | (false, s1) => (str, s1)
  | (true, s1) =>
    let tok := s1.buf.takeWhile (fun c => !isspace c)
    let rest := s1.buf.dropWhile (fun c => !isspace c)
    (String.mk tok, ⟨rest, s1.eofbit || rest.isEmpty, s1.failbit || tok.isEmpty⟩)

/-- Unformatted `in.peek()`: the next character without extracting it. -/
def peek (s : IStream) : Option Char × IStream :=
  match s.sentry false with
  | (false, s1) => (none, s1)
  | (true, s1) =>
    match s1.buf with
    | [] => (none, ⟨[], true, s1.failbit⟩)
    | b :: _ => (some b, s1)

/-- Unformatted `in.get()`: extracts one character. -/
def get (s : IStream) : Option Char × IStream :=
  match s.sentry false with
  | (false, s1) => (none, s1)
  | (true, s1) =>
    match s1.buf with
    | [] => (none, ⟨[], true, true⟩)
    | b :: rest => (some b, ⟨rest, s1.eofbit, s1.failbit⟩)

/-- The manipulator `in >> std::ws`: extracts whitespace; sets `eofbit`, not `failbit`,
when it stops at the end of the stream. -/
def ws (s : IStream) : IStream :=
  match s.sentry false with
  | (false, s1) => s1
  | (true, s1) =>
    match s1.buf.dropWhile isspace with
    | [] => ⟨[], true, s1.failbit⟩
    | c :: rest => ⟨c :: rest, s1.eofbit, s1.failbit⟩

/-- The states a stream over a fixed character sequence can be in: the end was
noticed only when no character is left, and an extraction fails only there. -/
def wf (s : IStream) : Bool :=
  (!s.eofbit || s.buf.isEmpty) && (!s.failbit || s.eofbit)

end IStream

/-- Results of `stoll`: the value, or one of the two exceptions. -/
inductive Stoll where
  | value (v : Int)
  | out_of_range
  | invalid_argument
deriving DecidableEq, Repr

/-- `isdigit`. -/
def isdigit (c : Char) : Bool := decide ('0' ≤ c) && decide (c ≤ '9')

/-- Value of the digit character `c`. -/
def digit_value (c : Char) : Nat := c.toNat - '0'.toNat

/-- `LLONG_MIN`. -/
def LLONG_MIN : Int := -9223372036854775808

/-- `LLONG_MAX`. -/
def LLONG_MAX : Int := 9223372036854775807

/-- `std::stoll(s)` (base 10), which calls `strtoll`: leading whitespace is skipped,
then an optional sign and the longest run of digits are converted.  No digit:
`invalid_argument`; value not representable in `long long`: `out_of_range`. -/
def stoll (s : String) : Stoll :=
  let cs := s.data.dropWhile isspace
  let body : Bool × List Char :=
    match cs with
    | '-' :: r => (true, r)
    | '+' :: r => (false, r)
    | r => (false, r)
  let digits := body.2.takeWhile isdigit
  if digits.isEmpty then Stoll.invalid_argument
  else
    let n : Nat := digits.foldl (fun acc c => 10 * acc + digit_value c) 0
    let x : Int := if body.1 then -(n : Int) else (n : Int)
    if x < LLONG_MIN ∨ LLONG_MAX < x then Stoll.out_of_range else Stoll.value x

/-- `std::to_string` of a `long long` or a `size_t`: canonical decimal. -/
def to_string (i : Int) : String := toString i

/-! ## The class -/

/-- What a terminated process leaves behind. -/
structure Exit where
  status : Nat
  cout : String
  cerr : String
deriving DecidableEq, Repr

/-- The `Validator` object together with what the process has written to `cerr`.
`uninit` is not a member: it is the indeterminate value that the uninitialised
local `char c` of `space()` and `newline()` holds before the extraction. -/
structure Validator where
  case_sensitive : Bool
  ws : Bool
  inp : IStream
  cerr : String
  uninit : Char
deriving DecidableEq, Repr

/-- A call either returns a value, leaving a new state, or ends the process. -/
inductive Outcome (α : Type) where
  | ok (val : α) (v : Validator)
  | exit (e : Exit)
deriving DecidableEq, Repr

namespace Validator

def ret_AC : Nat := 42

def ret_WA : Nat := 43

/-- The validator as constructed on a stream over `cs`, with nothing read yet. -/
def start (case_sensitive ws : Bool) (uninit : Char) (cs : List Char) : Validator :=
  ⟨case_sensitive, ws, IStream.fresh cs, "", uninit⟩

/-- Member `expected(exp, s)`: return WRONG ANSWER verdict. -/
def expected (v : Validator) (exp : String := "") (s : String := "") : Exit :=
  if s.length ≠ 0 then
    ⟨ret_WA, "Expected " ++ exp ++ ", found " ++ s ++ "\n", v.cerr⟩
  else if exp.length ≠ 0 then
    ⟨ret_WA, exp ++ "\n", v.cerr⟩
  else
    ⟨ret_WA, "", v.cerr⟩

/-- Member `WA(t...)`, with the arguments already concatenated. -/
def WA (v : Validator) (t : String) : Exit := ⟨ret_WA, t ++ "\n", v.cerr⟩

/-- Member `AC()`: return ACCEPTED verdict. -/
def AC (v : Validator) : Exit := ⟨ret_AC, "", v.cerr⟩

/-- A character between double quotes: `string("\"") + c + "\""`. -/
def quoted (c : Char) : String := "\"" ++ String.singleton c ++ "\""

/-- Member `space()`. -/
def space (v : Validator) : Outcome Unit :=
  if v.ws then
    match v.inp.extract_char false v.uninit with
    | (c, inp1) =>
      if c ≠ ' ' then
        Outcome.exit (expected ⟨v.case_sensitive, v.ws, inp1, v.cerr, v.uninit⟩ "space" (quoted c))
      else
        Outcome.ok () ⟨v.case_sensitive, v.ws, inp1, v.cerr ++ "read space!\n", v.uninit⟩
  else
    Outcome.ok () ⟨v.case_sensitive, v.ws, v.inp, v.cerr ++ "read space!\n", v.uninit⟩

/-- Member `newline()`. -/
def newline (v : Validator) : Outcome Unit :=
  if v.ws then
    match v.inp.extract_char false v.uninit with
    | (c, inp1) =>
      if c ≠ '\n' then
        Outcome.exit (expected ⟨v.case_sensitive, v.ws, inp1, v.cerr, v.uninit⟩ "newline" (quoted c))
      else
        Outcome.ok () ⟨v.case_sensitive, v.ws, inp1, v.cerr ++ "read newline!\n", v.uninit⟩
  else
    Outcome.ok () ⟨v.case_sensitive, v.ws, v.inp, v.cerr ++ "read newline!\n", v.uninit⟩

/-- The extraction `if(in >> s) return s; expected(wanted, "nothing");` that ends
`read_string`, on the stream state `inp0`. -/
def read_string_extract (v : Validator) (inp0 : IStream) (wanted : String) : Outcome String :=
  match inp0.extract_string (!v.ws) "" with
  | (s, inp1) =>
    if !inp1.fail then Outcome.ok s ⟨v.case_sensitive, v.ws, inp1, v.cerr, v.uninit⟩
    else Outcome.exit (expected ⟨v.case_sensitive, v.ws, inp1, v.cerr, v.uninit⟩ wanted "nothing")

/-- Member `read_string(wanted)`: read an arbitrary string. -/
def read_string (v : Validator) (wanted : String := "string") : Outcome String :=
  if v.ws then
    match v.inp.peek with
    | (i, inp0) =>
      if isspace (to_char_type i) then
        Outcome.exit (expected ⟨v.case_sensitive, v.ws, inp0, v.cerr, v.uninit⟩ wanted "whitespace")
      else read_string_extract v inp0 wanted
  else read_string_extract v v.inp wanted

/-- Member `read_string(min, max)`: read an arbitrary string of a given length. -/
def read_string_len (v : Validator) (min max : Nat) : Outcome String :=
  match read_string v with
  | Outcome.exit e => Outcome.exit e
  | Outcome.ok s v1 =>
    if s.length < min ∨ s.length > max then
      Outcome.exit (expected v1
        ("String of length between " ++ to_string min ++ " and " ++ to_string max) s)
    else Outcome.ok s v1

/-- Member `lowercase(s)`; it changes its argument in place and returns it. -/
def lowercase (v : Validator) (s : String) : String :=
  if !v.case_sensitive then s
  else String.mk (s.data.map tolower)

/-- Member `test_string(t)`: read the string t.  Both `s` and the parameter `t` are
passed to `lowercase` by reference, so `expected` gets what `lowercase` left. -/
def test_string (v : Validator) (t : String) : Outcome Unit :=
  match read_string v with
  | Outcome.exit e => Outcome.exit e
  | Outcome.ok s v1 =>
    let s1 := lowercase v1 s
    let t1 := lowercase v1 t
    if s1 ≠ t1 then Outcome.exit (expected v1 t1 s1)
    else Outcome.ok () v1

/-- The loop `for(; it != s.end(); ++it)` of `is_int`. -/
def is_int_rest (v : Validator) (s : String) : List Char → Outcome Unit
  | [] => Outcome.ok () v
  | c :: cs =>
    if !(decide ('0' ≤ c) && decide (c ≤ '9')) then Outcome.exit (expected v "integer" s)
    else is_int_rest v s cs

/-- Member `is_int(s)`: check whether a string is an integer.  On the empty string
`*it` reads the terminating `'\0'` of the string, which fails the first test. -/
def is_int (v : Validator) (s : String) : Outcome Unit :=
  let first : Char := s.data.headD '\x00'
  if !(first == '-' || (decide ('0' ≤ first) && decide (first ≤ '9'))) then
    Outcome.exit (expected v "integer with leading digit or minus sign" s)
  else is_int_rest v s s.data.tail

/-- Member `read_long_long()`: read a long long. -/
def read_long_long (v : Validator) : Outcome Int :=
  match read_string v "integer" with
  | Outcome.exit e => Outcome.exit e
  | Outcome.ok s v1 =>
    match is_int v1 s with
    | Outcome.exit e => Outcome.exit e
    | Outcome.ok _ v2 =>
      match stoll s with
      | Stoll.value x => Outcome.ok x v2
      | Stoll.out_of_range =>
        Outcome.exit (WA v2 ("Number " ++ s ++ " does not fit in a long long!"))
      | Stoll.invalid_argument =>
        Outcome.exit (WA v2 ("Parsing " ++ s ++ " as long long failed!"))

/-- Member `read_long_long(low, high)`: read a long long within a given range. -/
def read_long_long_range (v : Validator) (low high : Int) : Outcome Int :=
  match read_long_long v with
  | Outcome.exit e => Outcome.exit e
  | Outcome.ok x v1 =>
    if low ≤ x ∧ x ≤ high then Outcome.ok x v1
    else Outcome.exit (expected v1
      ("integer between " ++ to_string low ++ " and " ++ to_string high) (to_string x))

/-- Member `peek(c)`: check the next character. -/
def peek (v : Validator) (c : Char) : Outcome Bool :=
  let inp0 := if !v.ws then v.inp.ws else v.inp
  match inp0.peek with
  | (i, inp1) => Outcome.ok (i == some c) ⟨v.case_sensitive, v.ws, inp1, v.cerr, v.uninit⟩

/-- Member `eof()`: `none` when it returns, the exit of `expected` otherwise. -/
def eof (v : Validator) : Option Exit :=
  if v.inp.eof then none
  else
    let inp0 := if !v.ws then v.inp.ws else v.inp
    match inp0.get with
    | (i, inp1) =>
      let c := to_char_type i
      if eq_eof c then none
      else some (expected ⟨v.case_sensitive, v.ws, inp1, v.cerr, v.uninit⟩ "EOF" (quoted c))

/-- The destructor `~Validator()`: `eof(); AC();`. -/
def finish (v : Validator) : Exit :=
  match eof v with
  | some e => e
  | none => AC v

end Validator

/-! ## Decimal tokens -/

/-- The number that a string of decimal digits denotes, most significant digit first. -/
def decimal : List Char → Nat
  | [] => 0
  | c :: cs => digit_value c * 10 ^ cs.length + decimal cs

/-- The token made of an optional minus sign and the digits `ds`. -/
def int_token (neg : Bool) (ds : List Char) : List Char :=
  (if neg then ['-'] else []) ++ ds

/-- The integer that `int_token neg ds` denotes. -/
def int_value (neg : Bool) (ds : List Char) : Int :=
  if neg then -(decimal ds : Int) else (decimal ds : Int)

/-! ## Client scripts -/

/-- One call of a client on the validator. -/
inductive Op where
  | space
  | newline
  | read_string (wanted : String)
  | read_string_len (min max : Nat)
  | test_string (t : String)
  | read_long_long
  | read_long_long_range (low high : Int)
  | peek (c : Char)
deriving DecidableEq, Repr

/-- The value a call returns. -/
inductive Val where
  | unit
  | str (s : String)
  | int (x : Int)
  | bool (b : Bool)
deriving DecidableEq, Repr

/-- The outcome of a call, with its value as a `Val`. -/
def Outcome.toVal {α : Type} (f : α → Val) : Outcome α → Outcome Val
  | Outcome.ok a v => Outcome.ok (f a) v
  | Outcome.exit e => Outcome.exit e

/-- Executes one call. -/
def step (op : Op) (v : Validator) : Outcome Val :=
  match op with
  | Op.space => (v.space).toVal (fun _ => Val.unit)
  | Op.newline => (v.newline).toVal (fun _ => Val.unit)
  | Op.read_string wanted => (v.read_string wanted).toVal Val.str
  | Op.read_string_len min max => (v.read_string_len min max).toVal Val.str
  | Op.test_string t => (v.test_string t).toVal (fun _ => Val.unit)
  | Op.read_long_long => (v.read_long_long).toVal Val.int
  | Op.read_long_long_range low high => (v.read_long_long_range low high).toVal Val.int
  | Op.peek c => (v.peek c).toVal Val.bool

/-- A whole run: the client makes the calls of the script in order, then the validator
goes out of scope and its destructor runs.  The result is the list of the values the
calls returned and how the process ended; a call that exits ends the run at once. -/
def run : List Op → Validator → List Val × Exit
  | [], v => ([], v.finish)
  | op :: ops, v =>
    match step op v with
    | Outcome.exit e => ([], e)
    | Outcome.ok x v1 => (x :: (run ops v1).1, (run ops v1).2)

/-- The stream `t1 ' ' t2 ' ' ... ' ' tn '\n'` for the tokens `t :: ts`. -/
def line : String → List String → List Char
  | t, [] => t.data ++ ['\n']
  | t, x :: xs => t.data ++ ' ' :: line x xs

/-- The script `read_string, space, read_string, ..., space, read_string, newline`
with one `read_string` for the first token and one for each token of the list. -/
def line_script : List String → List Op
  | [] => [Op.read_string "string", Op.newline]
  | _ :: xs => Op.read_string "string" :: Op.space :: line_script xs

/-- The values the calls of `line_script` are to return on `line t ts`. -/
def line_values : String → List String → List Val
  | t, [] => [Val.str t, Val.unit]
  | t, x :: xs => Val.str t :: Val.unit :: line_values x xs

/-! ## Further members and tokens -/

/-- Member `WA(t...)` for several arguments: the fold `(cout << ... << t) << endl`
writes the arguments, each given here as the text `operator<<` prints, from left to
right and then ends the line. -/
def Validator.WA_fold (v : Validator) (ts : List String) : Exit :=
  ⟨Validator.ret_WA, ts.foldl (fun out t => out ++ t) "" ++ "\n", v.cerr⟩

/-- The whitespace-separated tokens of a character sequence, at most `fuel` of them. -/
def tokens_fuel : Nat → List Char → List (List Char)
  | 0, _ => []
  | fuel + 1, l =>
    match l.dropWhile isspace with
    | [] => []
    | c :: r =>
      (c :: r.takeWhile (fun x => !isspace x))
        :: tokens_fuel fuel (r.dropWhile (fun x => !isspace x))

/-- The whitespace-separated tokens of a character sequence: its maximal runs of
characters that are not whitespace, in order. -/
def tokens (l : List Char) : List (List Char) := tokens_fuel l.length l

/-- What the returning calls of a script write to `cerr`. -/
def cerr_lines : List Op → String
  | [] => ""
  | Op.space :: ops => "read space!\n" ++ cerr_lines ops
  | Op.newline :: ops => "read newline!\n" ++ cerr_lines ops
  | _ :: ops => cerr_lines ops

/-- What a call does besides returning its value: a returning call adds `line` to
`cerr` and keeps the policy; an exiting call has status 43 and leaves `cerr` as it was. -/
def framed {α : Type} (line : String) (v : Validator) : Outcome α → Prop
  | Outcome.ok _ v1 =>
    v1.cerr = v.cerr ++ line ∧ v1.case_sensitive = v.case_sensitive ∧ v1.ws = v.ws ∧
      v1.uninit = v.uninit
  | Outcome.exit e => e.status = 43 ∧ e.cerr = v.cerr

/-- Two validator states in lenient mode that differ at most in the whitespace of their
streams: same policy, same output so far, streams in states that occur
(`IStream.wf`), and the same whitespace-separated tokens left to read. -/
def lenient_sim (v w : Validator) : Prop :=
  v.case_sensitive = w.case_sensitive ∧ v.ws = false ∧ w.ws = false ∧ v.cerr = w.cerr ∧
    v.uninit = w.uninit ∧ v.inp.wf = true ∧ w.inp.wf = true ∧
    tokens v.inp.buf = tokens w.inp.buf

/-- Two outcomes that agree: both return the same value, leaving states related by
`lenient_sim`, or both end the process in the same way. -/
def lenient_sim_out {α : Type} : Outcome α → Outcome α → Prop
  | Outcome.ok x v, Outcome.ok y w => x = y ∧ lenient_sim v w
  | Outcome.exit e, Outcome.exit f => e = f
  | _, _ => False

open Validator

/-! ## Facts about the stream library -/

theorem isspace_ne_ff (c : Char) (h : isspace c = true) : eq_eof c = false := by
  simp only [isspace, Bool.or_eq_true, beq_iff_eq] at h
  rcases h with ((((h | h) | h) | h) | h) | h <;> subst h <;> decide

theorem quoted_length (c : Char) : (quoted c).length ≠ 0 := by
  simp [quoted]

theorem wf_cons_good (s : IStream) (c : Char) (r : List Char) (hb : s.buf = c :: r)
    (h : s.wf = true) : s.eofbit = false ∧ s.failbit = false := by
  rcases s with ⟨buf, e, f⟩
  simp only at hb
  subst hb
  cases e <;> cases f <;> simp_all [IStream.wf]

/-! ## Finalization -/

theorem finish_nil (v : Validator) (h : v.inp.buf = []) : finish v = AC v := by
  rcases v with ⟨cs, w, ⟨buf, e, f⟩, cerr, u⟩
  simp only at h
  subst h
  cases e <;> cases f <;> cases w <;> rfl

theorem finish_lenient_space (v : Validator) (hw : v.ws = false)
    (h : ∀ c ∈ v.inp.buf, isspace c = true) : finish v = AC v := by
  rcases v with ⟨cs, w, ⟨buf, e, f⟩, cerr, u⟩
  simp only at h hw
  subst hw
  have hd : List.dropWhile isspace buf = [] := List.dropWhile_eq_nil_iff.mpr h
  cases e <;> cases f <;>
    simp [finish, eof, IStream.eof, IStream.ws, IStream.get, IStream.sentry, IStream.good, hd,
      to_char_type, eq_eof]

theorem finish_strict_cons (v : Validator) (hw : v.ws = true) (hwf : v.inp.wf = true)
    (c : Char) (r : List Char) (hb : v.inp.buf = c :: r) (hc : eq_eof c = false) :
    finish v = ⟨ret_WA, "Expected EOF, found " ++ quoted c ++ "\n", v.cerr⟩ := by
  obtain ⟨he, hf⟩ := wf_cons_good v.inp c r hb hwf
  rcases v with ⟨cs, w, ⟨buf, e, f⟩, cerr, u⟩
  simp only at hb hw he hf
  subst hb hw he hf
  simp [finish, eof, IStream.eof, IStream.get, IStream.sentry, IStream.good, to_char_type, hc,
    expected, quoted_length]

/-! ## Reading a token -/

theorem take_token (tok rest : List Char) (hns : ∀ c ∈ tok, isspace c = false)
    (hrest : rest = [] ∨ ∃ c r, rest = c :: r ∧ isspace c = true) :
    List.takeWhile (fun c => !isspace c) (tok ++ rest) = tok ∧
    List.dropWhile (fun c => !isspace c) (tok ++ rest) = rest := by
  have hp : ∀ a ∈ tok, (fun c => !isspace c) a = true := by
    intro a ha
    simp [hns a ha]
  rw [List.takeWhile_append_of_pos hp, List.dropWhile_append_of_pos hp]
  rcases hrest with h | ⟨c, r, h, hc⟩
  · subst h
    simp
  · subst h
    simp [hc]

theorem skip_space (pre : List Char) (hpre : ∀ c ∈ pre, isspace c = true)
    (t : Char) (r : List Char) (ht : isspace t = false) :
    List.dropWhile isspace (pre ++ t :: r) = t :: r := by
  rw [List.dropWhile_append_of_pos hpre]
  simp [ht]

theorem read_string_token (v : Validator) (wanted : String) (pre tok rest : List Char)
    (hb : v.inp = ⟨pre ++ tok ++ rest, false, false⟩)
    (hpre : ∀ c ∈ pre, isspace c = true) (hstrict : v.ws = true → pre = [])
    (htok : tok ≠ []) (hns : ∀ c ∈ tok, isspace c = false)
    (hrest : rest = [] ∨ ∃ c r, rest = c :: r ∧ isspace c = true) :
    read_string v wanted = Outcome.ok (String.mk tok)
      ⟨v.case_sensitive, v.ws, ⟨rest, rest.isEmpty, false⟩, v.cerr, v.uninit⟩ := by
  rcases v with ⟨cs, w, inp, cerr, u⟩
  simp only at hb hstrict
  subst hb
  obtain ⟨t, ts, rfl⟩ := List.exists_cons_of_ne_nil htok
  have ht : isspace t = false := hns t (by simp)
  obtain ⟨h1, h2⟩ := take_token (t :: ts) rest hns hrest
  have h1' : List.takeWhile (fun c => !isspace c) (t :: (ts ++ rest)) = t :: ts := h1
  have h2' : List.dropWhile (fun c => !isspace c) (t :: (ts ++ rest)) = rest := h2
  cases w
  · have hd := skip_space pre hpre t (ts ++ rest) ht
    simp [read_string, read_string_extract, IStream.extract_string, IStream.sentry,
      IStream.good, IStream.fail, hd, h1', h2']
  · have hp : pre = [] := hstrict rfl
    subst hp
    simp [read_string, read_string_extract, IStream.extract_string, IStream.sentry,
      IStream.good, IStream.fail, IStream.peek, to_char_type, ht, h1', h2']

/-! ## The run of the token-line script -/

theorem run_line (cs w : Bool) (u : Char) (ts : List String) :
    ∀ (t : String) (pre : List Char) (cerr : String),
      (∀ c ∈ pre, isspace c = true) → (w = true → pre = []) →
      (∀ x ∈ t :: ts, x.data ≠ [] ∧ ∀ c ∈ x.data, isspace c = false) →
      ∃ cerr1, run (line_script ts) ⟨cs, w, ⟨pre ++ line t ts, false, false⟩, cerr, u⟩ =
        (line_values t ts, ⟨42, "", cerr1⟩) := by
  induction ts with
  | nil =>
    intro t pre cerr hpre hstrict htoks
    obtain ⟨hne, hns⟩ := htoks t (by simp)
    have hr := read_string_token ⟨cs, w, ⟨pre ++ line t [], false, false⟩, cerr, u⟩ "string"
      pre t.data ['\n'] (by simp [line]) hpre hstrict hne hns
      (Or.inr ⟨'\n', [], rfl, by decide⟩)
    refine ⟨cerr ++ "read newline!\n", ?_⟩
    cases w
    · have hf : finish ⟨cs, false, ⟨['\n'], false, false⟩, cerr ++ "read newline!\n", u⟩ =
          ⟨42, "", cerr ++ "read newline!\n"⟩ := by
        rw [finish_lenient_space _ rfl (by simp [isspace])]
        rfl
      simp [line_script, run, step, hr, Outcome.toVal, newline, line_values, hf]
    · have hf : finish ⟨cs, true, ⟨[], false, false⟩, cerr ++ "read newline!\n", u⟩ =
          ⟨42, "", cerr ++ "read newline!\n"⟩ := by
        rw [finish_nil _ rfl]
        rfl
      simp [line_script, run, step, hr, Outcome.toVal, newline, line_values, hf,
        IStream.extract_char, IStream.sentry, IStream.good]
  | cons x xs ih =>
    intro t pre cerr hpre hstrict htoks
    obtain ⟨hne, hns⟩ := htoks t (by simp)
    have htoks1 : ∀ y ∈ x :: xs, y.data ≠ [] ∧ ∀ c ∈ y.data, isspace c = false :=
      fun y hy => htoks y (List.mem_cons_of_mem _ hy)
    have hr := read_string_token ⟨cs, w, ⟨pre ++ line t (x :: xs), false, false⟩, cerr, u⟩
      "string" pre t.data (' ' :: line x xs) (by simp [line]) hpre hstrict hne hns
      (Or.inr ⟨' ', line x xs, rfl, by decide⟩)
    cases w
    · obtain ⟨cerr1, h1⟩ := ih x [' '] (cerr ++ "read space!\n") (by decide) (by simp) htoks1
      refine ⟨cerr1, ?_⟩
      simp only [List.singleton_append] at h1
      simp [line_script, run, step, hr, Outcome.toVal, space, line_values, h1]
    · obtain ⟨cerr1, h1⟩ := ih x [] (cerr ++ "read space!\n") (by simp) (by simp) htoks1
      refine ⟨cerr1, ?_⟩
      simp only [List.nil_append] at h1
      simp [line_script, run, step, hr, Outcome.toVal, space, line_values, h1,
        IStream.extract_char, IStream.sentry, IStream.good]

/-! ## Diagnostics of `expected` -/

theorem dropWhile_head_neg {p : Char → Bool} (l : List Char) (c : Char) (r : List Char)
    (h : List.dropWhile p l = c :: r) : p c = false := by
  induction l with
  | nil => simp at h
  | cons a l ih =>
    by_cases ha : p a = true
    · rw [List.dropWhile_cons_of_pos ha] at h
      exact ih h
    · rw [List.dropWhile_cons_of_neg ha] at h
      injection h with h1 h2
      subst h1
      simpa using ha

theorem isspace_ff : isspace '\xff' = false := by decide

theorem expected_found (v : Validator) (exp s : String) (h : s.length ≠ 0) :
    expected v exp s = ⟨43, "Expected " ++ exp ++ ", found " ++ s ++ "\n", v.cerr⟩ := by
  simp [expected, h, ret_WA]

theorem expected_nothing (v : Validator) (wanted : String) :
    expected v wanted "nothing"
      = ⟨43, "Expected " ++ wanted ++ ", found nothing\n", v.cerr⟩ := by
  rw [expected_found v wanted "nothing" (by decide)]
  simp only [String.append_assoc]
  rfl

theorem expected_whitespace (v : Validator) (wanted : String) :
    expected v wanted "whitespace"
      = ⟨43, "Expected " ++ wanted ++ ", found whitespace\n", v.cerr⟩ := by
  rw [expected_found v wanted "whitespace" (by decide)]
  simp only [String.append_assoc]
  rfl

/-! ## `read_string`, case by case -/

theorem read_string_not_good (v : Validator) (wanted : String) (h : v.inp.good = false) :
    read_string v wanted
      = Outcome.exit ⟨43, "Expected " ++ wanted ++ ", found nothing\n", v.cerr⟩ := by
  rcases v with ⟨cs, w, ⟨buf, e, f⟩, cerr, u⟩
  cases w <;> cases e <;> cases f <;>
    simp [IStream.good] at h <;>
    simp [read_string, read_string_extract, IStream.extract_string, IStream.sentry,
      IStream.good, IStream.fail, IStream.peek, to_char_type, isspace_ff, expected_nothing, expected_whitespace]

theorem read_string_strict_nil (v : Validator) (wanted : String) (hw : v.ws = true)
    (hb : v.inp.buf = []) :
    read_string v wanted
      = Outcome.exit ⟨43, "Expected " ++ wanted ++ ", found nothing\n", v.cerr⟩ := by
  rcases v with ⟨cs, w, ⟨buf, e, f⟩, cerr, u⟩
  simp only at hw hb
  subst hw hb
  cases e <;> cases f <;>
    simp [read_string, read_string_extract, IStream.extract_string, IStream.sentry,
      IStream.good, IStream.fail, IStream.peek, to_char_type, isspace_ff, expected_nothing, expected_whitespace]

theorem read_string_strict_space (v : Validator) (wanted : String) (hw : v.ws = true)
    (hg : v.inp.good = true) (c : Char) (r : List Char) (hb : v.inp.buf = c :: r)
    (hc : isspace c = true) :
    read_string v wanted
      = Outcome.exit ⟨43, "Expected " ++ wanted ++ ", found whitespace\n", v.cerr⟩ := by
  rcases v with ⟨cs, w, ⟨buf, e, f⟩, cerr, u⟩
  simp only at hw hb hg
  subst hw hb
  cases e <;> cases f <;> simp [IStream.good] at hg
  simp [read_string, IStream.sentry, IStream.good, IStream.peek, to_char_type, hc,
    expected_nothing, expected_whitespace]

theorem read_string_strict_token (v : Validator) (wanted : String) (hw : v.ws = true)
    (hg : v.inp.good = true) (c : Char) (r : List Char) (hb : v.inp.buf = c :: r)
    (hc : isspace c = false) :
    read_string v wanted
      = Outcome.ok (String.mk (c :: List.takeWhile (fun x => !isspace x) r))
          ⟨v.case_sensitive, true,
            ⟨List.dropWhile (fun x => !isspace x) r,
              (List.dropWhile (fun x => !isspace x) r).isEmpty, false⟩,
            v.cerr, v.uninit⟩ := by
  rcases v with ⟨cs, w, ⟨buf, e, f⟩, cerr, u⟩
  simp only at hw hb hg
  subst hw hb
  cases e <;> cases f <;> simp [IStream.good] at hg
  simp [read_string, read_string_extract, IStream.extract_string, IStream.sentry,
    IStream.good, IStream.fail, IStream.peek, to_char_type, hc]

theorem read_string_lenient_nil (v : Validator) (wanted : String) (hw : v.ws = false)
    (hb : ∀ c ∈ v.inp.buf, isspace c = true) :
    read_string v wanted
      = Outcome.exit ⟨43, "Expected " ++ wanted ++ ", found nothing\n", v.cerr⟩ := by
  rcases v with ⟨cs, w, ⟨buf, e, f⟩, cerr, u⟩
  simp only at hw hb
  subst hw
  have hd : List.dropWhile isspace buf = [] := List.dropWhile_eq_nil_iff.mpr hb
  cases e <;> cases f <;>
    simp [read_string, read_string_extract, IStream.extract_string, IStream.sentry,
      IStream.good, IStream.fail, hd, expected_nothing, expected_whitespace]

theorem read_string_lenient_token (v : Validator) (wanted : String) (hw : v.ws = false)
    (hg : v.inp.good = true) (c : Char) (r : List Char)
    (hb : List.dropWhile isspace v.inp.buf = c :: r) :
    read_string v wanted
      = Outcome.ok (String.mk (c :: List.takeWhile (fun x => !isspace x) r))
          ⟨v.case_sensitive, false,
            ⟨List.dropWhile (fun x => !isspace x) r,
              (List.dropWhile (fun x => !isspace x) r).isEmpty, false⟩,
            v.cerr, v.uninit⟩ := by
  have hc : isspace c = false := dropWhile_head_neg _ c r hb
  rcases v with ⟨cs, w, ⟨buf, e, f⟩, cerr, u⟩
  simp only at hw hb hg
  subst hw
  cases e <;> cases f <;> simp [IStream.good] at hg
  simp [read_string, read_string_extract, IStream.extract_string, IStream.sentry,
    IStream.good, IStream.fail, hb, hc]

theorem wf_good_of_mem (s : IStream) (c : Char) (hc : c ∈ s.buf) (h : s.wf = true) :
    s.good = true := by
  rcases s with ⟨buf, e, f⟩
  cases buf with
  | nil => simp at hc
  | cons a l => cases e <;> cases f <;> simp_all [IStream.wf, IStream.good]

/-- What a returning `read_string` has done: it skipped the whitespace `pre` (nothing
in strict mode), took the token `c :: takeWhile _ r` and left `dropWhile _ r`. -/
theorem read_string_ok_inv (v : Validator) (wanted s : String) (v1 : Validator)
    (h : read_string v wanted = Outcome.ok s v1) :
    ∃ pre c r, v.inp.buf = pre ++ c :: r ∧ (∀ x ∈ pre, isspace x = true) ∧
      (v.ws = true → pre = []) ∧ isspace c = false ∧
      s = String.mk (c :: List.takeWhile (fun x => !isspace x) r) ∧
      v1 = ⟨v.case_sensitive, v.ws,
        ⟨List.dropWhile (fun x => !isspace x) r,
          (List.dropWhile (fun x => !isspace x) r).isEmpty, false⟩, v.cerr, v.uninit⟩ := by
  by_cases hg : v.inp.good = true
  · cases hw : v.ws
    · cases hd : List.dropWhile isspace v.inp.buf with
      | nil =>
        rw [read_string_lenient_nil v wanted hw (List.dropWhile_eq_nil_iff.mp hd)] at h
        cases h
      | cons c r =>
        have hc : isspace c = false := dropWhile_head_neg _ c r hd
        rw [read_string_lenient_token v wanted hw hg c r hd] at h
        injection h with h1 h2
        refine ⟨List.takeWhile isspace v.inp.buf, c, r, ?_, ?_, by simp, hc, h1.symm, ?_⟩
        · have h3 := List.takeWhile_append_dropWhile isspace v.inp.buf
          rw [hd] at h3
          exact h3.symm
        · intro x hx
          exact List.mem_takeWhile_imp hx
        · rw [← h2]
    · cases hb : v.inp.buf with
      | nil =>
        rw [read_string_strict_nil v wanted hw hb] at h
        cases h
      | cons c r =>
        cases hc : isspace c
        · rw [read_string_strict_token v wanted hw hg c r hb hc] at h
          injection h with h1 h2
          refine ⟨[], c, r, rfl, by simp, fun _ => rfl, hc, h1.symm, ?_⟩
          rw [← h2]
        · rw [read_string_strict_space v wanted hw hg c r hb hc] at h
          cases h
  · rw [read_string_not_good v wanted (by simpa using hg)] at h
    cases h

/-! ## Integers -/

theorem isdigit_not_special (c : Char) (h : isdigit c = true) :
    isspace c = false ∧ c ≠ '-' ∧ c ≠ '+' := by
  refine ⟨?_, ?_, ?_⟩
  · cases hs : isspace c
    · rfl
    · simp only [isspace, Bool.or_eq_true, beq_iff_eq] at hs
      rcases hs with ((((hs | hs) | hs) | hs) | hs) | hs <;> subst hs <;> revert h <;> decide
  · intro hc
    subst hc
    revert h
    decide
  · intro hc
    subst hc
    revert h
    decide

theorem foldl_decimal (ds : List Char) : ∀ acc : Nat,
    List.foldl (fun a c => 10 * a + digit_value c) acc ds = acc * 10 ^ ds.length + decimal ds := by
  induction ds with
  | nil => intro acc; simp [decimal]
  | cons d ds ih =>
    intro acc
    simp only [List.foldl_cons, ih, decimal, List.length_cons, pow_succ]
    ring

theorem takeWhile_all_pos {p : Char → Bool} (l : List Char) (h : ∀ c ∈ l, p c = true) :
    List.takeWhile p l = l := by
  have := @List.takeWhile_append_of_pos Char p l [] h
  simpa using this

theorem stoll_int_token (neg : Bool) (ds : List Char) (hds : ds ≠ [])
    (hdig : ∀ c ∈ ds, isdigit c = true) :
    stoll (String.mk (int_token neg ds)) =
      if int_value neg ds < LLONG_MIN ∨ LLONG_MAX < int_value neg ds then Stoll.out_of_range
      else Stoll.value (int_value neg ds) := by
  obtain ⟨d, r, rfl⟩ := List.exists_cons_of_ne_nil hds
  obtain ⟨hd1, hd2, hd3⟩ := isdigit_not_special d (hdig d (by simp))
  have htw := takeWhile_all_pos (d :: r) hdig
  have hfold := foldl_decimal (d :: r) 0
  cases neg
  · have hm : (match d :: r with
        | '-' :: r1 => (true, r1)
        | '+' :: r1 => (false, r1)
        | r1 => (false, r1)) = (false, d :: r) := by
      split
      · rename_i heq; injection heq with h1 _; exact absurd h1 hd2
      · rename_i heq; injection heq with h1 _; exact absurd h1 hd3
      · rfl
    simp only [stoll, int_token, int_value, List.nil_append, Bool.false_eq_true, if_false,
      List.dropWhile_cons_of_neg (show ¬ isspace d = true by simp [hd1]), hm, htw, hfold]
    simp
  · simp only [stoll, int_token, int_value, List.singleton_append, if_true,
      List.dropWhile_cons_of_neg (show ¬ isspace '-' = true by decide), htw, hfold]
    simp

theorem is_int_rest_ok (v : Validator) (s : String) (cs : List Char)
    (h : ∀ c ∈ cs, isdigit c = true) : is_int_rest v s cs = Outcome.ok () v := by
  induction cs with
  | nil => rfl
  | cons c cs ih =>
    have hc : isdigit c = true := h c (by simp)
    simp only [isdigit] at hc
    simp only [is_int_rest, hc, Bool.not_true, Bool.false_eq_true, if_false]
    exact ih (fun x hx => h x (List.mem_cons_of_mem _ hx))

theorem is_int_rest_bad (v : Validator) (s : String) (hs : s.length ≠ 0) (cs : List Char)
    (h : ¬ ∀ c ∈ cs, isdigit c = true) :
    is_int_rest v s cs
      = Outcome.exit ⟨43, "Expected integer, found " ++ s ++ "\n", v.cerr⟩ := by
  induction cs with
  | nil => simp at h
  | cons c cs ih =>
    cases hc : isdigit c
    · simp only [isdigit] at hc
      simp only [is_int_rest, hc, Bool.not_false, if_true]
      rw [expected_found v "integer" s hs]
      simp only [String.append_assoc]
      rfl
    · have h1 : ¬ ∀ x ∈ cs, isdigit x = true := by
        intro hall
        apply h
        intro x hx
        rcases List.mem_cons.mp hx with hx | hx
        · rw [hx]; exact hc
        · exact hall x hx
      simp only [isdigit] at hc
      simp only [is_int_rest, hc, Bool.not_true, Bool.false_eq_true, if_false]
      exact ih h1

theorem is_int_first (v : Validator) (s : String) (c : Char) (cs : List Char)
    (hs : s.data = c :: cs) :
    is_int v s =
      if c = '-' ∨ isdigit c = true then is_int_rest v s cs
      else Outcome.exit
        ⟨43, "Expected integer with leading digit or minus sign, found " ++ s ++ "\n", v.cerr⟩ := by
  have hl : s.length ≠ 0 := by
    show s.data.length ≠ 0
    rw [hs]
    simp
  by_cases h : c = '-' ∨ isdigit c = true
  · rw [if_pos h]
    have : (c == '-' || (decide ('0' ≤ c) && decide (c ≤ '9'))) = true := by
      rcases h with h | h
      · simp [h]
      · simp only [isdigit] at h
        simp [h]
    simp only [is_int, hs, List.headD_cons, this, Bool.not_true, Bool.false_eq_true, if_false,
      List.tail_cons]
  · rw [if_neg h]
    have : (c == '-' || (decide ('0' ≤ c) && decide (c ≤ '9'))) = false := by
      cases hb : (c == '-' || (decide ('0' ≤ c) && decide (c ≤ '9')))
      · rfl
      · exfalso
        apply h
        simp only [Bool.or_eq_true, beq_iff_eq] at hb
        rcases hb with hb | hb
        · exact Or.inl hb
        · exact Or.inr (by simpa [isdigit] using hb)
    simp only [is_int, hs, List.headD_cons, this, Bool.not_false, if_true]
    rw [expected_found v _ s hl]
    simp only [String.append_assoc]
    rfl

theorem is_int_token (v : Validator) (neg : Bool) (ds : List Char) (hds : ds ≠ [])
    (hdig : ∀ c ∈ ds, isdigit c = true) :
    is_int v (String.mk (int_token neg ds)) = Outcome.ok () v := by
  obtain ⟨d, r, rfl⟩ := List.exists_cons_of_ne_nil hds
  cases neg
  · show is_int v (String.mk (d :: r)) = _
    rw [is_int_first v _ d r rfl, if_pos (Or.inr (hdig d (by simp)))]
    exact is_int_rest_ok v _ r (fun x hx => hdig x (List.mem_cons_of_mem _ hx))
  · show is_int v (String.mk ('-' :: d :: r)) = _
    rw [is_int_first v _ '-' (d :: r) rfl, if_pos (Or.inl rfl)]
    exact is_int_rest_ok v _ (d :: r) hdig

/-- `read_long_long` on a good stream whose next token is an optional minus
sign followed by digits. -/
theorem read_long_long_token (case_sensitive ws : Bool) (uninit : Char) (cerr : String)
    (pre ds rest : List Char) (neg : Bool)
    (hpre : ∀ c ∈ pre, isspace c = true) (hstrict : ws = true → pre = [])
    (hds : ds ≠ []) (hdig : ∀ c ∈ ds, isdigit c = true)
    (hrest : rest = [] ∨ ∃ c r, rest = c :: r ∧ isspace c = true) :
    read_long_long ⟨case_sensitive, ws, ⟨pre ++ int_token neg ds ++ rest, false, false⟩,
        cerr, uninit⟩ =
      if int_value neg ds < LLONG_MIN ∨ LLONG_MAX < int_value neg ds then
        Outcome.exit ⟨43, "Number " ++ String.mk (int_token neg ds)
          ++ " does not fit in a long long!\n", cerr⟩
      else
        Outcome.ok (int_value neg ds)
          ⟨case_sensitive, ws, ⟨rest, rest.isEmpty, false⟩, cerr, uninit⟩ := by
  have hne : int_token neg ds ≠ [] := by
    cases neg <;> simp [int_token, hds]
  have hns : ∀ c ∈ int_token neg ds, isspace c = false := by
    intro c hc
    cases neg
    · exact (isdigit_not_special c (hdig c (by simpa [int_token] using hc))).1
    · simp only [int_token, if_true, List.singleton_append, List.mem_cons] at hc
      rcases hc with hc | hc
      · subst hc; decide
      · exact (isdigit_not_special c (hdig c hc)).1
  have hr := read_string_token
    ⟨case_sensitive, ws, ⟨pre ++ int_token neg ds ++ rest, false, false⟩, cerr, uninit⟩
    "integer" pre (int_token neg ds) rest rfl hpre hstrict hne hns hrest
  simp only [read_long_long, hr, is_int_token _ neg ds hds hdig, stoll_int_token neg ds hds hdig]
  split_ifs with h
  · simp only [WA, ret_WA, String.append_assoc]
    rfl
  · rfl

theorem isdigit_iff (c : Char) : isdigit c = true ↔ c ∈ "0123456789".data := by
  constructor
  · intro h
    simp only [isdigit, Bool.and_eq_true, decide_eq_true_eq] at h
    obtain ⟨h1, h2⟩ := h
    have h1' : 48 ≤ c.toNat := h1
    have h2' : c.toNat ≤ 57 := h2
    have hc : c = Char.ofNat c.toNat := (Char.ofNat_toNat c).symm
    generalize c.toNat = n at h1' h2' hc
    subst hc
    interval_cases n <;> decide
  · intro h
    simp only [List.mem_cons, List.mem_singleton] at h
    rcases h with h | h | h | h | h | h | h | h | h | h | h
    all_goals first | (subst h; decide) | (simp at h)

theorem toDigitsCore_length_le (b : Nat) : ∀ (fuel n : Nat) (ds : List Char),
    ds.length ≤ (Nat.toDigitsCore b fuel n ds).length := by
  intro fuel
  induction fuel with
  | zero => intro n ds; simp [Nat.toDigitsCore]
  | succ f ih =>
    intro n ds
    simp only [Nat.toDigitsCore]
    split
    · simp
    · exact Nat.le_trans (by simp) (ih _ _)

theorem nat_repr_length (n : Nat) : (Nat.repr n).length ≠ 0 := by
  have h : 1 ≤ (Nat.toDigits 10 n).length := by
    simp only [Nat.toDigits, Nat.toDigitsCore]
    split
    · simp
    · exact Nat.le_trans (by simp) (toDigitsCore_length_le 10 _ _ _)
  show (Nat.toDigits 10 n).asString.length ≠ 0
  simp only [List.asString, String.length]
  omega

theorem to_string_length (i : Int) : (to_string i).length ≠ 0 := by
  cases i with
  | ofNat m => exact nat_repr_length m
  | negSucc m =>
    show ("-" ++ Nat.repr (Nat.succ m)).length ≠ 0
    rw [String.length_append]
    have := nat_repr_length (Nat.succ m)
    omega

/-! ## The stream states that occur -/

theorem start_wf (case_sensitive ws : Bool) (uninit : Char) (cs : List Char) :
    (start case_sensitive ws uninit cs).inp.wf = true := rfl

theorem read_string_wf (v : Validator) (wanted s : String) (v1 : Validator)
    (h : read_string v wanted = Outcome.ok s v1) : v1.inp.wf = true := by
  obtain ⟨pre, c, r, _, _, _, _, _, hv1⟩ := read_string_ok_inv v wanted s v1 h
  subst hv1
  cases hd : List.dropWhile (fun x => !isspace x) r <;> simp [IStream.wf]

theorem extract_char_wf (s : IStream) (c : Char) (h : s.wf = true) :
    (s.extract_char false c).2.wf = true := by
  rcases s with ⟨buf, e, f⟩
  cases buf <;> cases e <;> cases f <;>
    simp_all [IStream.wf, IStream.extract_char, IStream.sentry, IStream.good]

theorem ws_wf (s : IStream) (h : s.wf = true) : s.ws.wf = true := by
  rcases s with ⟨buf, e, f⟩
  cases e <;> cases f <;> simp_all [IStream.wf, IStream.ws, IStream.sentry, IStream.good]
  split <;> simp

theorem peek_wf (s : IStream) (h : s.wf = true) : s.peek.2.wf = true := by
  rcases s with ⟨buf, e, f⟩
  cases buf <;> cases e <;> cases f <;>
    simp_all [IStream.wf, IStream.peek, IStream.sentry, IStream.good]

theorem space_wf (v v1 : Validator) (hwf : v.inp.wf = true)
    (h : space v = Outcome.ok () v1) : v1.inp.wf = true := by
  have hx := extract_char_wf v.inp v.uninit hwf
  unfold space at h
  generalize v.inp.extract_char false v.uninit = p at h hx
  rcases p with ⟨c, inp1⟩
  simp only at h hx
  split_ifs at h with hw h1 <;> injection h with _ h2 <;> subst h2 <;> assumption

theorem newline_wf (v v1 : Validator) (hwf : v.inp.wf = true)
    (h : newline v = Outcome.ok () v1) : v1.inp.wf = true := by
  have hx := extract_char_wf v.inp v.uninit hwf
  unfold newline at h
  generalize v.inp.extract_char false v.uninit = p at h hx
  rcases p with ⟨c, inp1⟩
  simp only at h hx
  split_ifs at h with hw h1 <;> injection h with _ h2 <;> subst h2 <;> assumption

theorem read_long_long_wf (v : Validator) (x : Int) (v1 : Validator)
    (h : read_long_long v = Outcome.ok x v1) : v1.inp.wf = true := by
  unfold read_long_long at h
  cases hr : read_string v "integer" with
  | exit e => rw [hr] at h; cases h
  | ok s v2 =>
    have hwf2 := read_string_wf v "integer" s v2 hr
    rw [hr] at h
    simp only at h
    cases hs : s.data with
    | nil =>
      obtain ⟨_, c, r, _, _, _, _, hs1, _⟩ := read_string_ok_inv v "integer" s v2 hr
      rw [hs1] at hs
      cases hs
    | cons c cs =>
      rw [is_int_first v2 s c cs hs] at h
      split_ifs at h with hc
      by_cases hall : ∀ y ∈ cs, isdigit y = true
      · rw [is_int_rest_ok v2 s cs hall] at h
        simp only at h
        split at h
        · injection h with _ h2
          rw [← h2]
          exact hwf2
        · cases h
        · cases h
      · have hl : s.length ≠ 0 := by
          show s.data.length ≠ 0
          rw [hs]
          simp
        rw [is_int_rest_bad v2 s hl cs hall] at h
        cases h

/-- Every call that returns leaves the stream in a state of `IStream.wf`. -/
theorem step_wf (op : Op) (v : Validator) (x : Val) (v1 : Validator) (hwf : v.inp.wf = true)
    (h : step op v = Outcome.ok x v1) : v1.inp.wf = true := by
  cases op with
  | space =>
    simp only [step] at h
    cases hs : space v with
    | exit e => rw [hs] at h; cases h
    | ok u v2 =>
      rw [hs] at h
      injection h with _ h2
      rw [← h2]
      exact space_wf v v2 hwf hs
  | newline =>
    simp only [step] at h
    cases hs : newline v with
    | exit e => rw [hs] at h; cases h
    | ok u v2 =>
      rw [hs] at h
      injection h with _ h2
      rw [← h2]
      exact newline_wf v v2 hwf hs
  | read_string wanted =>
    simp only [step] at h
    cases hs : read_string v wanted with
    | exit e => rw [hs] at h; cases h
    | ok s v2 =>
      rw [hs] at h
      injection h with _ h2
      rw [← h2]
      exact read_string_wf v wanted s v2 hs
  | read_string_len min max =>
    simp only [step, read_string_len] at h
    cases hs : read_string v with
    | exit e => rw [hs] at h; cases h
    | ok s v2 =>
      rw [hs] at h
      simp only at h
      split_ifs at h
      · cases h
      · injection h with _ h2
        rw [← h2]
        exact read_string_wf v "string" s v2 hs
  | test_string t =>
    simp only [step, test_string] at h
    cases hs : read_string v with
    | exit e => rw [hs] at h; cases h
    | ok s v2 =>
      rw [hs] at h
      simp only at h
      split_ifs at h
      · cases h
      · injection h with _ h2
        rw [← h2]
        exact read_string_wf v "string" s v2 hs
  | read_long_long =>
    simp only [step] at h
    cases hs : read_long_long v with
    | exit e => rw [hs] at h; cases h
    | ok s v2 =>
      rw [hs] at h
      injection h with _ h2
      rw [← h2]
      exact read_long_long_wf v s v2 hs
  | read_long_long_range low high =>
    simp only [step, read_long_long_range] at h
    cases hs : read_long_long v with
    | exit e => rw [hs] at h; cases h
    | ok s v2 =>
      rw [hs] at h
      simp only at h
      split_ifs at h
      · injection h with _ h2
        rw [← h2]
        exact read_long_long_wf v s v2 hs
      · cases h
  | peek c =>
    simp only [step, Validator.peek, Outcome.toVal] at h
    injection h with _ h2
    rw [← h2]
    cases hw : v.ws
    · exact peek_wf _ (ws_wf _ hwf)
    · exact peek_wf _ hwf

/-! ## Exit statuses -/

theorem expected_status (v : Validator) (exp s : String) : (expected v exp s).status = 43 := by
  unfold expected
  split_ifs <;> rfl

theorem read_string_exit_status (v : Validator) (wanted : String) (e : Exit)
    (h : read_string v wanted = Outcome.exit e) : e.status = 43 := by
  by_cases hg : v.inp.good = true
  · cases hw : v.ws
    · cases hd : List.dropWhile isspace v.inp.buf with
      | nil =>
        rw [read_string_lenient_nil v wanted hw (List.dropWhile_eq_nil_iff.mp hd)] at h
        injection h with h1
        rw [← h1]
      | cons c r =>
        rw [read_string_lenient_token v wanted hw hg c r hd] at h
        cases h
    · cases hb : v.inp.buf with
      | nil =>
        rw [read_string_strict_nil v wanted hw hb] at h
        injection h with h1
        rw [← h1]
      | cons c r =>
        cases hc : isspace c
        · rw [read_string_strict_token v wanted hw hg c r hb hc] at h
          cases h
        · rw [read_string_strict_space v wanted hw hg c r hb hc] at h
          injection h with h1
          rw [← h1]
  · rw [read_string_not_good v wanted (by simpa using hg)] at h
    injection h with h1
    rw [← h1]

theorem is_int_rest_exit_status (v : Validator) (s : String) (cs : List Char) (e : Exit)
    (h : is_int_rest v s cs = Outcome.exit e) : e.status = 43 := by
  induction cs with
  | nil => cases h
  | cons c cs ih =>
    unfold is_int_rest at h
    split_ifs at h
    · injection h with h1
      rw [← h1]
      exact expected_status _ _ _
    · exact ih h

theorem read_long_long_exit_status (v : Validator) (e : Exit)
    (h : read_long_long v = Outcome.exit e) : e.status = 43 := by
  unfold read_long_long at h
  cases hr : read_string v "integer" with
  | exit e1 =>
    rw [hr] at h
    injection h with h1
    rw [← h1]
    exact read_string_exit_status v "integer" e1 hr
  | ok s v2 =>
    rw [hr] at h
    simp only at h
    cases hi : is_int v2 s with
    | exit e1 =>
      rw [hi] at h
      injection h with h1
      rw [← h1]
      unfold is_int at hi
      simp only at hi
      split_ifs at hi
      · injection hi with h2
        rw [← h2]
        exact expected_status _ _ _
      · exact is_int_rest_exit_status v2 s _ e1 hi
    | ok u v3 =>
      rw [hi] at h
      simp only at h
      split at h
      · cases h
      · injection h with h1
        rw [← h1]
        rfl
      · injection h with h1
        rw [← h1]
        rfl

/-! ## Further evaluations -/

theorem finish_lenient_cons (v : Validator) (hw : v.ws = false) (hwf : v.inp.wf = true)
    (pre : List Char) (c : Char) (r : List Char) (hb : v.inp.buf = pre ++ c :: r)
    (hpre : ∀ x ∈ pre, isspace x = true) (hs : isspace c = false) (hc : eq_eof c = false) :
    finish v = ⟨ret_WA, "Expected EOF, found " ++ quoted c ++ "\n", v.cerr⟩ := by
  have hgood : v.inp.eofbit = false ∧ v.inp.failbit = false := by
    cases pre with
    | nil => exact wf_cons_good v.inp c r hb hwf
    | cons p ps => exact wf_cons_good v.inp p (ps ++ c :: r) hb hwf
  obtain ⟨he, hf⟩ := hgood
  rcases v with ⟨cs, w, ⟨buf, e, f⟩, cerr, u⟩
  simp only at hb hw he hf
  subst hb hw he hf
  have hd := skip_space pre hpre c r hs
  simp [finish, eof, IStream.eof, IStream.ws, IStream.get, IStream.sentry, IStream.good,
    to_char_type, hc, hd, expected, quoted_length]

theorem read_long_long_start_ok (case_sensitive ws : Bool) (uninit : Char) (neg : Bool)
    (ds : List Char) (x : Int) (hds : ds ≠ []) (hdig : ∀ c ∈ ds, isdigit c = true)
    (hx : int_value neg ds = x) (hr : ¬ (x < LLONG_MIN ∨ LLONG_MAX < x)) :
    read_long_long (start case_sensitive ws uninit (int_token neg ds))
      = Outcome.ok x ⟨case_sensitive, ws, ⟨[], true, false⟩, "", uninit⟩ := by
  have h := read_long_long_token case_sensitive ws uninit "" [] ds [] neg (by simp) (by simp)
    hds hdig (Or.inl rfl)
  rw [hx, if_neg hr] at h
  simpa [start, IStream.fresh] using h

theorem read_long_long_start_overflow (case_sensitive ws : Bool) (uninit : Char) (neg : Bool)
    (ds : List Char) (msg : String) (hds : ds ≠ []) (hdig : ∀ c ∈ ds, isdigit c = true)
    (hr : int_value neg ds < LLONG_MIN ∨ LLONG_MAX < int_value neg ds)
    (hm : "Number " ++ String.mk (int_token neg ds) ++ " does not fit in a long long!\n" = msg) :
    read_long_long (start case_sensitive ws uninit (int_token neg ds))
      = Outcome.exit ⟨43, msg, ""⟩ := by
  have h := read_long_long_token case_sensitive ws uninit "" [] ds [] neg (by simp) (by simp)
    hds hdig (Or.inl rfl)
  rw [if_pos hr, hm] at h
  simpa [start, IStream.fresh] using h

/-! ## Bounded strings, `space`, `newline` and `peek` -/

theorem read_string_ok_length (v : Validator) (wanted s : String) (v1 : Validator)
    (h : read_string v wanted = Outcome.ok s v1) : s.length ≠ 0 := by
  obtain ⟨_, c, r, _, _, _, _, hs, _⟩ := read_string_ok_inv v wanted s v1 h
  subst hs
  simp [String.length]

theorem read_string_start_token (case_sensitive ws : Bool) (uninit : Char) (wanted : String)
    (tok : List Char) (htok : tok ≠ []) (hns : ∀ c ∈ tok, isspace c = false) :
    read_string (start case_sensitive ws uninit tok) wanted
      = Outcome.ok (String.mk tok) ⟨case_sensitive, ws, ⟨[], true, false⟩, "", uninit⟩ := by
  have h := read_string_token (start case_sensitive ws uninit tok) wanted [] tok []
    (by simp [start, IStream.fresh]) (by simp) (by simp) htok hns (Or.inl rfl)
  simpa [start] using h

theorem read_string_len_start (case_sensitive ws : Bool) (uninit : Char) (min max : Nat)
    (tok : List Char) (htok : tok ≠ []) (hns : ∀ c ∈ tok, isspace c = false) :
    read_string_len (start case_sensitive ws uninit tok) min max
      = if tok.length < min ∨ tok.length > max then
          Outcome.exit (expected ⟨case_sensitive, ws, ⟨[], true, false⟩, "", uninit⟩
            ("String of length between " ++ to_string min ++ " and " ++ to_string max)
            (String.mk tok))
        else Outcome.ok (String.mk tok) ⟨case_sensitive, ws, ⟨[], true, false⟩, "", uninit⟩ := by
  have h := read_string_start_token case_sensitive ws uninit "string" tok htok hns
  simp only [read_string_len, h]
  rfl

theorem space_lenient (v : Validator) (hw : v.ws = false) :
    space v = Outcome.ok () ⟨v.case_sensitive, v.ws, v.inp, v.cerr ++ "read space!\n", v.uninit⟩ := by
  simp [space, hw]

theorem newline_lenient (v : Validator) (hw : v.ws = false) :
    newline v
      = Outcome.ok () ⟨v.case_sensitive, v.ws, v.inp, v.cerr ++ "read newline!\n", v.uninit⟩ := by
  simp [newline, hw]

theorem expected_quoted (v : Validator) (exp : String) (c : Char) :
    expected v exp (quoted c)
      = ⟨43, "Expected " ++ exp ++ ", found \"" ++ String.singleton c ++ "\"\n", v.cerr⟩ := by
  rw [expected_found v exp (quoted c) (quoted_length c)]
  simp only [quoted, String.append_assoc]
  rfl

theorem space_strict_cons (v : Validator) (hw : v.ws = true) (hwf : v.inp.wf = true)
    (c : Char) (r : List Char) (hb : v.inp.buf = c :: r) :
    space v =
      if c = ' ' then
        Outcome.ok () ⟨v.case_sensitive, true, ⟨r, false, false⟩, v.cerr ++ "read space!\n",
          v.uninit⟩
      else
        Outcome.exit ⟨43, "Expected space, found \"" ++ String.singleton c ++ "\"\n", v.cerr⟩ := by
  obtain ⟨he, hf⟩ := wf_cons_good v.inp c r hb hwf
  rcases v with ⟨cs, w, ⟨buf, e, f⟩, cerr, u⟩
  simp only at hb hw he hf
  subst hb hw he hf
  by_cases hc : c = ' '
  · simp [space, IStream.extract_char, IStream.sentry, IStream.good, hc]
  · simp [space, IStream.extract_char, IStream.sentry, IStream.good, hc, expected_quoted]

theorem newline_strict_cons (v : Validator) (hw : v.ws = true) (hwf : v.inp.wf = true)
    (c : Char) (r : List Char) (hb : v.inp.buf = c :: r) :
    newline v =
      if c = '\n' then
        Outcome.ok () ⟨v.case_sensitive, true, ⟨r, false, false⟩, v.cerr ++ "read newline!\n",
          v.uninit⟩
      else
        Outcome.exit ⟨43, "Expected newline, found \"" ++ String.singleton c ++ "\"\n", v.cerr⟩ := by
  obtain ⟨he, hf⟩ := wf_cons_good v.inp c r hb hwf
  rcases v with ⟨cs, w, ⟨buf, e, f⟩, cerr, u⟩
  simp only at hb hw he hf
  subst hb hw he hf
  by_cases hc : c = '\n'
  · simp [newline, IStream.extract_char, IStream.sentry, IStream.good, hc]
  · simp [newline, IStream.extract_char, IStream.sentry, IStream.good, hc, expected_quoted]

theorem space_strict_nil (v : Validator) (hw : v.ws = true) (hb : v.inp.buf = []) :
    space v =
      if v.uninit = ' ' then
        Outcome.ok () ⟨v.case_sensitive, true, (v.inp.extract_char false v.uninit).2,
          v.cerr ++ "read space!\n", v.uninit⟩
      else
        Outcome.exit
          ⟨43, "Expected space, found \"" ++ String.singleton v.uninit ++ "\"\n", v.cerr⟩ := by
  rcases v with ⟨cs, w, ⟨buf, e, f⟩, cerr, u⟩
  simp only at hb hw
  subst hb hw
  by_cases hc : u = ' '
  · cases e <;> cases f <;>
      simp [space, IStream.extract_char, IStream.sentry, IStream.good, hc]
  · cases e <;> cases f <;>
      simp [space, IStream.extract_char, IStream.sentry, IStream.good, hc, expected_quoted]

theorem newline_strict_nil (v : Validator) (hw : v.ws = true) (hb : v.inp.buf = []) :
    newline v =
      if v.uninit = '\n' then
        Outcome.ok () ⟨v.case_sensitive, true, (v.inp.extract_char false v.uninit).2,
          v.cerr ++ "read newline!\n", v.uninit⟩
      else
        Outcome.exit
          ⟨43, "Expected newline, found \"" ++ String.singleton v.uninit ++ "\"\n", v.cerr⟩ := by
  rcases v with ⟨cs, w, ⟨buf, e, f⟩, cerr, u⟩
  simp only at hb hw
  subst hb hw
  by_cases hc : u = '\n'
  · cases e <;> cases f <;>
      simp [newline, IStream.extract_char, IStream.sentry, IStream.good, hc]
  · cases e <;> cases f <;>
      simp [newline, IStream.extract_char, IStream.sentry, IStream.good, hc, expected_quoted]
theorem peek_strict (v : Validator) (c : Char) (hw : v.ws = true) (hwf : v.inp.wf = true) :
    ∃ e f, peek v c = Outcome.ok (decide (v.inp.buf.head? = some c))
      ⟨v.case_sensitive, v.ws, ⟨v.inp.buf, e, f⟩, v.cerr, v.uninit⟩ := by
  rcases v with ⟨cs, w, ⟨buf, e, f⟩, cerr, u⟩
  simp only at hw
  subst hw
  cases buf <;> cases e <;> cases f <;>
    simp_all [IStream.wf, Validator.peek, IStream.peek, IStream.sentry, IStream.good,
      beq_eq_decide]

theorem ws_good (buf : List Char) :
    IStream.ws ⟨buf, false, false⟩
      = ⟨buf.dropWhile isspace, (buf.dropWhile isspace).isEmpty, false⟩ := by
  cases hd : List.dropWhile isspace buf <;>
    simp [IStream.ws, IStream.sentry, IStream.good, hd]

theorem peek_lenient (v : Validator) (c : Char) (hw : v.ws = false) (hwf : v.inp.wf = true) :
    ∃ e f, peek v c = Outcome.ok (decide ((v.inp.buf.dropWhile isspace).head? = some c))
      ⟨v.case_sensitive, v.ws, ⟨v.inp.buf.dropWhile isspace, e, f⟩, v.cerr, v.uninit⟩ := by
  rcases v with ⟨cs, w, ⟨buf, e, f⟩, cerr, u⟩
  simp only at hw
  subst hw
  cases e <;> cases f
  · simp only [Validator.peek, Bool.not_false, if_true, ws_good]
    cases hd : List.dropWhile isspace buf <;>
      simp [IStream.peek, IStream.sentry, IStream.good, beq_eq_decide]
  · simp [IStream.wf] at hwf
  · cases buf <;>
      simp_all [IStream.wf, Validator.peek, IStream.peek, IStream.ws, IStream.sentry,
        IStream.good]
  · cases buf <;>
      simp_all [IStream.wf, Validator.peek, IStream.peek, IStream.ws, IStream.sentry,
        IStream.good]

/-! ## What the calls leave unchanged -/

theorem expected_cerr (v : Validator) (exp s : String) : (expected v exp s).cerr = v.cerr := by
  unfold expected
  split_ifs <;> rfl

theorem framed_expected {α : Type} (line : String) (v v1 : Validator) (exp s : String)
    (h : v1.cerr = v.cerr) : framed line v (Outcome.exit (expected v1 exp s) : Outcome α) :=
  ⟨expected_status v1 exp s, by rw [expected_cerr, h]⟩

theorem read_string_framed (v : Validator) (wanted : String) :
    framed "" v (read_string v wanted) := by
  cases h : read_string v wanted with
  | ok s v1 =>
    obtain ⟨_, _, _, _, _, _, _, _, hv1⟩ := read_string_ok_inv v wanted s v1 h
    subst hv1
    exact ⟨by simp, rfl, rfl, rfl⟩
  | exit e =>
    refine ⟨read_string_exit_status v wanted e h, ?_⟩
    by_cases hg : v.inp.good = true
    · cases hw : v.ws
      · cases hd : List.dropWhile isspace v.inp.buf with
        | nil =>
          rw [read_string_lenient_nil v wanted hw (List.dropWhile_eq_nil_iff.mp hd)] at h
          injection h with h1
          rw [← h1]
        | cons c r =>
          rw [read_string_lenient_token v wanted hw hg c r hd] at h
          cases h
      · cases hb : v.inp.buf with
        | nil =>
          rw [read_string_strict_nil v wanted hw hb] at h
          injection h with h1
          rw [← h1]
        | cons c r =>
          cases hc : isspace c
          · rw [read_string_strict_token v wanted hw hg c r hb hc] at h
            cases h
          · rw [read_string_strict_space v wanted hw hg c r hb hc] at h
            injection h with h1
            rw [← h1]
    · rw [read_string_not_good v wanted (by simpa using hg)] at h
      injection h with h1
      rw [← h1]

theorem is_int_rest_cases (v : Validator) (s : String) (cs : List Char) :
    is_int_rest v s cs = Outcome.ok () v ∨
      is_int_rest v s cs = Outcome.exit (expected v "integer" s) := by
  induction cs with
  | nil => exact Or.inl rfl
  | cons c cs ih =>
    unfold is_int_rest
    split_ifs
    · exact Or.inr rfl
    · exact ih

theorem is_int_cases (v : Validator) (s : String) :
    is_int v s = Outcome.ok () v ∨ ∃ exp, is_int v s = Outcome.exit (expected v exp s) := by
  unfold is_int
  simp only
  split_ifs
  · exact Or.inr ⟨_, rfl⟩
  · rcases is_int_rest_cases v s s.data.tail with h | h
    · exact Or.inl h
    · exact Or.inr ⟨_, h⟩

theorem read_string_len_framed (v : Validator) (min max : Nat) :
    framed "" v (read_string_len v min max) := by
  have hr := read_string_framed v "string"
  unfold read_string_len
  cases h : read_string v with
  | exit e =>
    rw [h] at hr
    exact hr
  | ok s v1 =>
    rw [h] at hr
    simp only
    split_ifs
    · exact framed_expected "" v v1 _ _ (by simpa using hr.1)
    · exact hr

theorem test_string_framed (v : Validator) (t : String) :
    framed "" v (test_string v t) := by
  have hr := read_string_framed v "string"
  unfold test_string
  cases h : read_string v with
  | exit e =>
    rw [h] at hr
    exact hr
  | ok s v1 =>
    rw [h] at hr
    simp only
    split_ifs
    · exact framed_expected "" v v1 _ _ (by simpa using hr.1)
    · exact hr

theorem read_long_long_framed (v : Validator) : framed "" v (read_long_long v) := by
  have hr := read_string_framed v "integer"
  unfold read_long_long
  cases h : read_string v "integer" with
  | exit e =>
    rw [h] at hr
    exact hr
  | ok s v1 =>
    rw [h] at hr
    have hc : v1.cerr = v.cerr := by simpa using hr.1
    simp only
    rcases is_int_cases v1 s with hi | ⟨exp, hi⟩
    · rw [hi]
      simp only
      split
      · exact hr
      · exact ⟨rfl, hc⟩
      · exact ⟨rfl, hc⟩
    · rw [hi]
      exact framed_expected "" v v1 _ _ hc

theorem read_long_long_range_framed (v : Validator) (low high : Int) :
    framed "" v (read_long_long_range v low high) := by
  have hr := read_long_long_framed v
  unfold read_long_long_range
  cases h : read_long_long v with
  | exit e =>
    rw [h] at hr
    exact hr
  | ok x v1 =>
    rw [h] at hr
    simp only
    split_ifs
    · exact hr
    · exact framed_expected "" v v1 _ _ (by simpa using hr.1)

theorem space_framed (v : Validator) : framed "read space!\n" v (space v) := by
  unfold space
  generalize v.inp.extract_char false v.uninit = p
  rcases p with ⟨c, inp1⟩
  simp only
  split_ifs
  · exact framed_expected _ v _ _ _ rfl
  · exact ⟨rfl, rfl, rfl, rfl⟩
  · exact ⟨rfl, rfl, rfl, rfl⟩

theorem newline_framed (v : Validator) : framed "read newline!\n" v (newline v) := by
  unfold newline
  generalize v.inp.extract_char false v.uninit = p
  rcases p with ⟨c, inp1⟩
  simp only
  split_ifs
  · exact framed_expected _ v _ _ _ rfl
  · exact ⟨rfl, rfl, rfl, rfl⟩
  · exact ⟨rfl, rfl, rfl, rfl⟩

theorem peek_framed (v : Validator) (c : Char) : framed "" v (peek v c) := by
  unfold Validator.peek
  simp only
  exact ⟨by simp, rfl, rfl, rfl⟩

theorem toVal_framed {α : Type} (line : String) (v : Validator) (f : α → Val) (o : Outcome α)
    (h : framed line v o) : framed line v (o.toVal f) := by
  cases o <;> exact h

theorem step_framed (op : Op) (v : Validator) : framed (cerr_lines [op]) v (step op v) := by
  cases op <;> simp only [step, cerr_lines, String.append_empty]
  · exact toVal_framed _ v _ _ (space_framed v)
  · exact toVal_framed _ v _ _ (newline_framed v)
  · exact toVal_framed _ v _ _ (read_string_framed v _)
  · exact toVal_framed _ v _ _ (read_string_len_framed v _ _)
  · exact toVal_framed _ v _ _ (test_string_framed v _)
  · exact toVal_framed _ v _ _ (read_long_long_framed v)
  · exact toVal_framed _ v _ _ (read_long_long_range_framed v _ _)
  · exact toVal_framed _ v _ _ (peek_framed v _)

theorem step_exit_status (op : Op) (v : Validator) (e : Exit)
    (h : step op v = Outcome.exit e) : e.status = 43 ∧ e.cerr = v.cerr := by
  have hf := step_framed op v
  rw [h] at hf
  exact hf

theorem step_ok_cerr (op : Op) (v : Validator) (x : Val) (v1 : Validator)
    (h : step op v = Outcome.ok x v1) : v1.cerr = v.cerr ++ cerr_lines [op] := by
  have hf := step_framed op v
  rw [h] at hf
  exact hf.1

theorem expected_congr (v v1 : Validator) (exp s : String) (h : v1.cerr = v.cerr) :
    expected v1 exp s = expected v exp s := by
  unfold expected
  rw [h]

theorem eof_cases (v : Validator) :
    eof v = none ∨ ∃ c, eof v = some (expected v "EOF" (quoted c)) := by
  unfold eof
  by_cases he : v.inp.eof = true
  · rw [if_pos he]
    exact Or.inl rfl
  · rw [if_neg he]
    simp only
    generalize (if (!v.ws) = true then v.inp.ws else v.inp).get = p
    rcases p with ⟨i, inp1⟩
    simp only
    by_cases hc : eq_eof (to_char_type i) = true
    · rw [if_pos hc]
      exact Or.inl rfl
    · rw [if_neg hc]
      exact Or.inr ⟨to_char_type i, congrArg some (expected_congr v _ _ _ rfl)⟩

theorem finish_cases (v : Validator) :
    finish v = ⟨42, "", v.cerr⟩ ∨
      ∃ c, finish v = ⟨43, "Expected EOF, found \"" ++ String.singleton c ++ "\"\n", v.cerr⟩ := by
  unfold finish
  rcases eof_cases v with h | ⟨c, h⟩
  · rw [h]
    exact Or.inl rfl
  · rw [h, expected_quoted]
    exact Or.inr ⟨c, rfl⟩
/-! ## Whole runs -/

theorem cerr_lines_cons (op : Op) (ops : List Op) :
    cerr_lines (op :: ops) = cerr_lines [op] ++ cerr_lines ops := by
  cases op <;> simp [cerr_lines, String.append_assoc]

theorem run_nil (v : Validator) : run [] v = ([], finish v) := rfl

theorem run_cons_exit (op : Op) (ops : List Op) (v : Validator) (e : Exit)
    (h : step op v = Outcome.exit e) : run (op :: ops) v = ([], e) := by
  simp only [run, h]

theorem run_cons_ok (op : Op) (ops : List Op) (v : Validator) (x : Val) (v1 : Validator)
    (h : step op v = Outcome.ok x v1) :
    run (op :: ops) v = (x :: (run ops v1).1, (run ops v1).2) := by
  simp only [run, h]

/-- A run ends with status 42, nothing on `cout` and every call returned, or with status
43; `cerr` holds the lines of the calls that returned. -/
theorem run_inv (ops : List Op) : ∀ v : Validator,
    (run ops v).2.cerr = v.cerr ++ cerr_lines (ops.take (run ops v).1.length) ∧
    (((run ops v).2.status = 42 ∧ (run ops v).2.cout = "" ∧
        (run ops v).1.length = ops.length) ∨
      (run ops v).2.status = 43) := by
  induction ops with
  | nil =>
    intro v
    rw [run_nil]
    rcases finish_cases v with h | ⟨c, h⟩
    · rw [h]
      exact ⟨by simp [cerr_lines], Or.inl ⟨rfl, rfl, rfl⟩⟩
    · rw [h]
      exact ⟨by simp [cerr_lines], Or.inr rfl⟩
  | cons op ops ih =>
    intro v
    cases h : step op v with
    | exit e =>
      rw [run_cons_exit op ops v e h]
      obtain ⟨h1, h2⟩ := step_exit_status op v e h
      exact ⟨by simp [cerr_lines, h2], Or.inr h1⟩
    | ok x v1 =>
      rw [run_cons_ok op ops v x v1 h]
      obtain ⟨h1, h2⟩ := ih v1
      have hc := step_ok_cerr op v x v1 h
      refine ⟨?_, ?_⟩
      · simp only [List.length_cons, List.take_succ_cons]
        rw [h1, hc, cerr_lines_cons op (List.take _ ops), String.append_assoc]
      · rcases h2 with ⟨a, b, c⟩ | a
        · exact Or.inl ⟨a, b, by simp [c]⟩
        · exact Or.inr a

/-! ## Tokens that pass `is_int` -/

theorem is_int_ok_shape (v v1 : Validator) (s : String) (c : Char) (cs : List Char)
    (hs : s.data = c :: cs) (h : is_int v s = Outcome.ok () v1) :
    (c = '-' ∨ isdigit c = true) ∧ ∀ x ∈ cs, isdigit x = true := by
  have hl : s.length ≠ 0 := by
    show s.data.length ≠ 0
    rw [hs]
    simp
  rw [is_int_first v s c cs hs] at h
  by_cases hc : c = '-' ∨ isdigit c = true
  · refine ⟨hc, ?_⟩
    rw [if_pos hc] at h
    by_contra hall
    rw [is_int_rest_bad v s hl cs hall] at h
    cases h
  · rw [if_neg hc] at h
    cases h

theorem is_int_ok_token (v v1 : Validator) (s : String) (hne : s.data ≠ [])
    (h : is_int v s = Outcome.ok () v1) :
    s = "-" ∨ ∃ neg ds, ds ≠ [] ∧ (∀ x ∈ ds, isdigit x = true) ∧
      s = String.mk (int_token neg ds) := by
  obtain ⟨c, cs, hs⟩ := List.exists_cons_of_ne_nil hne
  obtain ⟨hc, hall⟩ := is_int_ok_shape v v1 s c cs hs h
  by_cases hd : isdigit c = true
  · refine Or.inr ⟨false, c :: cs, by simp, ?_, ?_⟩
    · intro x hx
      rcases List.mem_cons.mp hx with hx | hx
      · rw [hx]; exact hd
      · exact hall x hx
    · apply String.ext
      rw [hs]
      rfl
  · have hm : c = '-' := by
      rcases hc with hc | hc
      · exact hc
      · exact absurd hc hd
    subst hm
    cases cs with
    | nil =>
      left
      apply String.ext
      exact hs
    | cons d ds =>
      refine Or.inr ⟨true, d :: ds, by simp, hall, ?_⟩
      apply String.ext
      rw [hs]
      rfl

theorem stoll_lone_minus : stoll "-" = Stoll.invalid_argument := by decide

theorem int_token_ne_lone_minus (neg : Bool) (ds : List Char) (hds : ds ≠ [])
    (hdig : ∀ x ∈ ds, isdigit x = true) : String.mk (int_token neg ds) ≠ "-" := by
  intro h
  have hd : int_token neg ds = ['-'] := congrArg String.data h
  obtain ⟨d, r, rfl⟩ := List.exists_cons_of_ne_nil hds
  cases neg
  · simp only [int_token, Bool.false_eq_true, if_false, List.nil_append] at hd
    injection hd with h1 _
    exact (isdigit_not_special d (hdig d (by simp))).2.1 h1
  · simp [int_token] at hd

/-! ## `lowercase` and the origin of an exit -/

theorem lowercase_length (v : Validator) (s : String) : (lowercase v s).length = s.length := by
  unfold lowercase
  split_ifs
  · rfl
  · show (List.map tolower s.data).length = s.data.length
    exact List.length_map _ _

theorem lowercase_cases (v : Validator) (s : String) :
    lowercase v s = s ∨ lowercase v s = String.mk (s.data.map tolower) := by
  unfold lowercase
  split_ifs
  · exact Or.inl rfl
  · exact Or.inr rfl

/-- The exit of a run is the exit of one call of the script or of the destructor. -/
theorem run_exit_origin (ops : List Op) : ∀ v : Validator,
    ∃ v1, finish v1 = (run ops v).2 ∨ ∃ op ∈ ops, step op v1 = Outcome.exit (run ops v).2 := by
  induction ops with
  | nil =>
    intro v
    exact ⟨v, Or.inl rfl⟩
  | cons op ops ih =>
    intro v
    cases h : step op v with
    | exit e =>
      rw [run_cons_exit op ops v e h]
      exact ⟨v, Or.inr ⟨op, by simp, h⟩⟩
    | ok x v1 =>
      rw [run_cons_ok op ops v x v1 h]
      obtain ⟨v2, h2 | ⟨op2, hm, h2⟩⟩ := ih v1
      · exact ⟨v2, Or.inl h2⟩
      · exact ⟨v2, Or.inr ⟨op2, List.mem_cons_of_mem _ hm, h2⟩⟩

/-! ## Whitespace-separated tokens -/

theorem length_dropWhile_le (p : Char → Bool) (l : List Char) :
    (List.dropWhile p l).length ≤ l.length := by
  induction l with
  | nil => simp
  | cons a l ih =>
    rw [List.dropWhile_cons]
    split_ifs
    · exact Nat.le_trans ih (by simp)
    · exact Nat.le_refl _

theorem tokens_fuel_stable : ∀ (n m : Nat) (l : List Char), l.length ≤ n → l.length ≤ m →
    tokens_fuel n l = tokens_fuel m l := by
  intro n
  induction n with
  | zero =>
    intro m l hn _
    have hl : l = [] := List.length_eq_zero.mp (Nat.le_zero.mp hn)
    subst hl
    cases m <;> simp [tokens_fuel]
  | succ n ih =>
    intro m l hn hm
    cases m with
    | zero =>
      have hl : l = [] := List.length_eq_zero.mp (Nat.le_zero.mp hm)
      subst hl
      simp [tokens_fuel]
    | succ m =>
      simp only [tokens_fuel]
      cases hd : List.dropWhile isspace l with
      | nil => rfl
      | cons c r =>
        have h1 : (c :: r).length ≤ l.length := by
          rw [← hd]
          exact length_dropWhile_le isspace l
        have h2 := length_dropWhile_le (fun x => !isspace x) r
        simp only [List.length_cons] at h1
        simp only
        rw [ih m (List.dropWhile (fun x => !isspace x) r) (by omega) (by omega)]

theorem tokens_of_space (l : List Char) (h : List.dropWhile isspace l = []) : tokens l = [] := by
  unfold tokens
  cases hl : l.length with
  | zero => rfl
  | succ n => simp only [tokens_fuel, h]

theorem tokens_of_token (l : List Char) (c : Char) (r : List Char)
    (h : List.dropWhile isspace l = c :: r) :
    tokens l = (c :: List.takeWhile (fun x => !isspace x) r)
      :: tokens (List.dropWhile (fun x => !isspace x) r) := by
  have h1 : (c :: r).length ≤ l.length := by
    rw [← h]
    exact length_dropWhile_le isspace l
  have h2 := length_dropWhile_le (fun x => !isspace x) r
  simp only [List.length_cons] at h1
  unfold tokens
  cases hl : l.length with
  | zero => omega
  | succ n =>
    simp only [tokens_fuel, h]
    rw [tokens_fuel_stable n _ (List.dropWhile (fun x => !isspace x) r) (by omega)
      (Nat.le_refl _)]

theorem dropWhile_idem (l : List Char) :
    List.dropWhile isspace (List.dropWhile isspace l) = List.dropWhile isspace l := by
  cases hd : List.dropWhile isspace l with
  | nil => rfl
  | cons c r =>
    have hc : isspace c = false := dropWhile_head_neg l c r hd
    simp [hc]

theorem tokens_dropWhile (l : List Char) : tokens (List.dropWhile isspace l) = tokens l := by
  cases hd : List.dropWhile isspace l with
  | nil => rw [tokens_of_space l hd]; rfl
  | cons c r =>
    have h1 := dropWhile_idem l
    rw [hd] at h1
    rw [tokens_of_token l c r hd, tokens_of_token (c :: r) c r h1]

/-- The first character after the leading whitespace is the first character of the
first token. -/
theorem head_dropWhile_tokens (l : List Char) :
    (List.dropWhile isspace l).head? = (tokens l).head?.bind List.head? := by
  cases hd : List.dropWhile isspace l with
  | nil => rw [tokens_of_space l hd]; rfl
  | cons c r => rw [tokens_of_token l c r hd]; rfl

/-! ## Lenient mode sees only the tokens -/

theorem wf_good_of_ne_nil (s : IStream) (h : s.wf = true) (hb : s.buf ≠ []) :
    s.good = true := by
  obtain ⟨c, r, hc⟩ := List.exists_cons_of_ne_nil hb
  exact wf_good_of_mem s c (by simp [hc]) h

theorem dropWhile_ne_nil (l : List Char) (c : Char) (r : List Char)
    (h : List.dropWhile isspace l = c :: r) : l ≠ [] := by
  intro hl
  subst hl
  simp at h

theorem read_string_lenient_tokens (v : Validator) (wanted : String) (hw : v.ws = false)
    (hwf : v.inp.wf = true) :
    (tokens v.inp.buf = [] →
      read_string v wanted
        = Outcome.exit ⟨43, "Expected " ++ wanted ++ ", found nothing\n", v.cerr⟩) ∧
    (∀ t ts, tokens v.inp.buf = t :: ts → ∃ rest,
      read_string v wanted = Outcome.ok (String.mk t)
        ⟨v.case_sensitive, false, ⟨rest, rest.isEmpty, false⟩, v.cerr, v.uninit⟩ ∧
      tokens rest = ts) := by
  cases hd : List.dropWhile isspace v.inp.buf with
  | nil =>
    refine ⟨fun _ => read_string_lenient_nil v wanted hw (List.dropWhile_eq_nil_iff.mp hd), ?_⟩
    intro t ts ht
    rw [tokens_of_space _ hd] at ht
    cases ht
  | cons c r =>
    have ht := tokens_of_token _ c r hd
    have hg := wf_good_of_ne_nil v.inp hwf (dropWhile_ne_nil _ c r hd)
    refine ⟨?_, ?_⟩
    · intro h0
      rw [ht] at h0
      cases h0
    · intro t ts h1
      rw [ht] at h1
      injection h1 with h2 h3
      refine ⟨List.dropWhile (fun x => !isspace x) r, ?_, h3⟩
      rw [read_string_lenient_token v wanted hw hg c r hd, h2]

theorem wf_after_token (rest : List Char) : (IStream.mk rest rest.isEmpty false).wf = true := by
  cases rest <;> rfl

theorem read_string_sim (v w : Validator) (wanted : String) (h : lenient_sim v w) :
    lenient_sim_out (read_string v wanted) (read_string w wanted) := by
  obtain ⟨hcs, hv, hw, hce, hu, hvf, hwf, ht⟩ := h
  obtain ⟨v0, v1⟩ := read_string_lenient_tokens v wanted hv hvf
  obtain ⟨w0, w1⟩ := read_string_lenient_tokens w wanted hw hwf
  cases hk : tokens v.inp.buf with
  | nil =>
    rw [v0 hk, w0 (ht ▸ hk), hce]
    rfl
  | cons t ts =>
    obtain ⟨r1, hr1, ht1⟩ := v1 t ts hk
    obtain ⟨r2, hr2, ht2⟩ := w1 t ts (ht ▸ hk)
    rw [hr1, hr2]
    exact ⟨rfl, hcs, rfl, rfl, hce, hu, wf_after_token r1, wf_after_token r2,
      ht1.trans ht2.symm⟩

theorem expected_sim (v w : Validator) (exp s : String) (h : lenient_sim v w) :
    expected v exp s = expected w exp s :=
  expected_congr w v exp s h.2.2.2.1

theorem is_int_rest_pair (v w : Validator) (s : String) (cs : List Char) :
    (is_int_rest v s cs = Outcome.ok () v ∧ is_int_rest w s cs = Outcome.ok () w) ∨
    (is_int_rest v s cs = Outcome.exit (expected v "integer" s) ∧
      is_int_rest w s cs = Outcome.exit (expected w "integer" s)) := by
  induction cs with
  | nil => exact Or.inl ⟨rfl, rfl⟩
  | cons c cs ih =>
    unfold is_int_rest
    split_ifs
    · exact Or.inr ⟨rfl, rfl⟩
    · exact ih

theorem is_int_pair (v w : Validator) (s : String) :
    (is_int v s = Outcome.ok () v ∧ is_int w s = Outcome.ok () w) ∨
    ∃ exp, is_int v s = Outcome.exit (expected v exp s) ∧
      is_int w s = Outcome.exit (expected w exp s) := by
  unfold is_int
  simp only
  split_ifs
  · exact Or.inr ⟨_, rfl, rfl⟩
  · rcases is_int_rest_pair v w s s.data.tail with h | h
    · exact Or.inl h
    · exact Or.inr ⟨_, h⟩

theorem lowercase_sim (v w : Validator) (s : String) (h : lenient_sim v w) :
    lowercase v s = lowercase w s := by
  unfold lowercase
  rw [h.1]

theorem read_string_len_sim (v w : Validator) (min max : Nat) (h : lenient_sim v w) :
    lenient_sim_out (read_string_len v min max) (read_string_len w min max) := by
  have hr := read_string_sim v w "string" h
  unfold read_string_len
  cases h1 : read_string v <;> cases h2 : read_string w <;> rw [h1, h2] at hr
  · obtain ⟨hx, hs⟩ := hr
    subst hx
    simp only
    split_ifs
    · exact expected_sim _ _ _ _ hs
    · exact ⟨rfl, hs⟩
  · exact hr.elim
  · exact hr.elim
  · exact hr

theorem test_string_sim (v w : Validator) (t : String) (h : lenient_sim v w) :
    lenient_sim_out (test_string v t) (test_string w t) := by
  have hr := read_string_sim v w "string" h
  unfold test_string
  cases h1 : read_string v <;> cases h2 : read_string w <;> rw [h1, h2] at hr
  · obtain ⟨hx, hs⟩ := hr
    subst hx
    simp only [lowercase_sim _ _ _ hs]
    split_ifs
    · exact expected_sim _ _ _ _ hs
    · exact ⟨rfl, hs⟩
  · exact hr.elim
  · exact hr.elim
  · exact hr

theorem read_long_long_sim (v w : Validator) (h : lenient_sim v w) :
    lenient_sim_out (read_long_long v) (read_long_long w) := by
  have hr := read_string_sim v w "integer" h
  unfold read_long_long
  cases h1 : read_string v "integer" <;> cases h2 : read_string w "integer" <;>
    rw [h1, h2] at hr
  · rename_i s v1 s2 w1
    obtain ⟨hx, hs⟩ := hr
    subst hx
    simp only
    rcases is_int_pair v1 w1 s with ⟨hi1, hi2⟩ | ⟨exp, hi1, hi2⟩
    · rw [hi1, hi2]
      simp only
      cases stoll s
      · exact ⟨rfl, hs⟩
      · show WA v1 _ = WA w1 _
        simp only [WA, hs.2.2.2.1]
      · show WA v1 _ = WA w1 _
        simp only [WA, hs.2.2.2.1]
    · rw [hi1, hi2]
      exact expected_sim _ _ _ _ hs
  · exact hr.elim
  · exact hr.elim
  · exact hr

theorem read_long_long_range_sim (v w : Validator) (low high : Int) (h : lenient_sim v w) :
    lenient_sim_out (read_long_long_range v low high) (read_long_long_range w low high) := by
  have hr := read_long_long_sim v w h
  unfold read_long_long_range
  cases h1 : read_long_long v <;> cases h2 : read_long_long w <;> rw [h1, h2] at hr
  · obtain ⟨hx, hs⟩ := hr
    subst hx
    simp only
    split_ifs
    · exact ⟨rfl, hs⟩
    · exact expected_sim _ _ _ _ hs
  · exact hr.elim
  · exact hr.elim
  · exact hr

theorem space_sim (v w : Validator) (h : lenient_sim v w) :
    lenient_sim_out (space v) (space w) := by
  obtain ⟨hcs, hv, hw, hce, hu, hvf, hwf, ht⟩ := h
  rw [space_lenient v hv, space_lenient w hw]
  exact ⟨rfl, hcs, hv, hw, by simp only [hce], hu, hvf, hwf, ht⟩

theorem newline_sim (v w : Validator) (h : lenient_sim v w) :
    lenient_sim_out (newline v) (newline w) := by
  obtain ⟨hcs, hv, hw, hce, hu, hvf, hwf, ht⟩ := h
  rw [newline_lenient v hv, newline_lenient w hw]
  exact ⟨rfl, hcs, hv, hw, by simp only [hce], hu, hvf, hwf, ht⟩

theorem peek_sim (v w : Validator) (c : Char) (h : lenient_sim v w) :
    lenient_sim_out (peek v c) (peek w c) := by
  obtain ⟨hcs, hv, hw, hce, hu, hvf, hwf, ht⟩ := h
  obtain ⟨e1, f1, h1⟩ := peek_lenient v c hv hvf
  obtain ⟨e2, f2, h2⟩ := peek_lenient w c hw hwf
  have hwf1 : (IStream.mk (List.dropWhile isspace v.inp.buf) e1 f1).wf = true := by
    have := step_wf (Op.peek c) v _ _ hvf (by simp only [step, h1, Outcome.toVal]; rfl)
    exact this
  have hwf2 : (IStream.mk (List.dropWhile isspace w.inp.buf) e2 f2).wf = true := by
    have := step_wf (Op.peek c) w _ _ hwf (by simp only [step, h2, Outcome.toVal]; rfl)
    exact this
  rw [h1, h2]
  refine ⟨?_, hcs, hv, hw, hce, hu, hwf1, hwf2, ?_⟩
  · rw [head_dropWhile_tokens, head_dropWhile_tokens, ht]
  · show tokens (List.dropWhile isspace v.inp.buf) = tokens (List.dropWhile isspace w.inp.buf)
    rw [tokens_dropWhile, tokens_dropWhile, ht]

theorem finish_lenient_head (v : Validator) (hw : v.ws = false) (hwf : v.inp.wf = true) :
    finish v =
      match (List.dropWhile isspace v.inp.buf).head? with
      | none => AC v
      | some c =>
        if eq_eof c = true then AC v
        else ⟨ret_WA, "Expected EOF, found " ++ quoted c ++ "\n", v.cerr⟩ := by
  cases hd : List.dropWhile isspace v.inp.buf with
  | nil => exact finish_lenient_space v hw (List.dropWhile_eq_nil_iff.mp hd)
  | cons c r =>
    have hc : isspace c = false := dropWhile_head_neg _ c r hd
    have hb : v.inp.buf = List.takeWhile isspace v.inp.buf ++ c :: r := by
      have := List.takeWhile_append_dropWhile isspace v.inp.buf
      rw [hd] at this
      exact this.symm
    simp only [List.head?_cons]
    by_cases he : eq_eof c = true
    · rw [if_pos he]
      have hg := wf_good_of_ne_nil v.inp hwf (dropWhile_ne_nil _ c r hd)
      rcases v with ⟨cs, w, ⟨buf, e, f⟩, cerr, u⟩
      simp only at hw hd hg
      subst hw
      cases e <;> cases f <;> simp [IStream.good] at hg
      simp [finish, eof, IStream.eof, IStream.ws, IStream.get, IStream.sentry, IStream.good,
        to_char_type, he, hd]
    · rw [if_neg he]
      exact finish_lenient_cons v hw hwf _ c r hb (fun x hx => List.mem_takeWhile_imp hx) hc
        (by simpa using he)

theorem finish_sim (v w : Validator) (h : lenient_sim v w) : finish v = finish w := by
  obtain ⟨hcs, hv, hw, hce, hu, hvf, hwf, ht⟩ := h
  rw [finish_lenient_head v hv hvf, finish_lenient_head w hw hwf, head_dropWhile_tokens,
    head_dropWhile_tokens, ht]
  simp only [AC, hce]

theorem toVal_sim {α : Type} (f : α → Val) (o p : Outcome α) (h : lenient_sim_out o p) :
    lenient_sim_out (o.toVal f) (p.toVal f) := by
  cases o <;> cases p
  · exact ⟨congrArg f h.1, h.2⟩
  · exact h.elim
  · exact h.elim
  · exact h

theorem step_sim (op : Op) (v w : Validator) (h : lenient_sim v w) :
    lenient_sim_out (step op v) (step op w) := by
  cases op <;> simp only [step]
  · exact toVal_sim _ _ _ (space_sim v w h)
  · exact toVal_sim _ _ _ (newline_sim v w h)
  · exact toVal_sim _ _ _ (read_string_sim v w _ h)
  · exact toVal_sim _ _ _ (read_string_len_sim v w _ _ h)
  · exact toVal_sim _ _ _ (test_string_sim v w _ h)
  · exact toVal_sim _ _ _ (read_long_long_sim v w h)
  · exact toVal_sim _ _ _ (read_long_long_range_sim v w _ _ h)
  · exact toVal_sim _ _ _ (peek_sim v w _ h)

theorem run_sim (ops : List Op) : ∀ v w : Validator, lenient_sim v w → run ops v = run ops w := by
  induction ops with
  | nil =>
    intro v w h
    rw [run_nil, run_nil, finish_sim v w h]
  | cons op ops ih =>
    intro v w h
    have hs := step_sim op v w h
    cases h1 : step op v <;> cases h2 : step op w <;> rw [h1, h2] at hs
    · obtain ⟨hx, hvw⟩ := hs
      rw [run_cons_ok op ops v _ _ h1, run_cons_ok op ops w _ _ h2, ih _ _ hvw, hx]
    · exact hs.elim
    · exact hs.elim
    · have he : _ = _ := hs
      rw [run_cons_exit op ops v _ h1, run_cons_exit op ops w _ h2, he]

theorem peek_strict_cons (v : Validator) (c : Char) (hw : v.ws = true) (hwf : v.inp.wf = true)
    (hb : v.inp.buf ≠ []) :
    peek v c = Outcome.ok (decide (v.inp.buf.head? = some c)) v := by
  have hg := wf_good_of_ne_nil v.inp hwf hb
  rcases v with ⟨cs, w, ⟨buf, e, f⟩, cerr, u⟩
  simp only at hw hb hg
  subst hw
  cases buf with
  | nil => exact absurd rfl hb
  | cons b r =>
    cases e <;> cases f <;> simp [IStream.good] at hg
    simp [Validator.peek, IStream.peek, IStream.sentry, IStream.good, beq_eq_decide]

/-! ## The claims -/

/-- C1: in both whitespace modes, for every non-empty list of tokens, each non-empty and
free of whitespace, the run of the script `read_string, space, ..., read_string, newline`
on the stream `t1 ' ' ... ' ' tn '\n'` returns the tokens in order from the
`read_string` calls and ends in the destructor with exit status 42 and nothing on
`cout`. -/
theorem C1_token_line_accepted (case_sensitive ws : Bool) (uninit : Char) (t : String)
    (ts : List String)
    (htoks : ∀ x ∈ t :: ts, x.data ≠ [] ∧ ∀ c ∈ x.data, isspace c = false) :
    (run (line_script ts) (start case_sensitive ws uninit (line t ts))).1 = line_values t ts ∧
    (run (line_script ts) (start case_sensitive ws uninit (line t ts))).2.status = 42 ∧
    (run (line_script ts) (start case_sensitive ws uninit (line t ts))).2.cout = "" := by
  obtain ⟨cerr1, h⟩ := run_line case_sensitive ws uninit ts t [] "" (by simp) (by simp) htoks
  simp only [List.nil_append] at h
  simp only [start, IStream.fresh, h, and_self]

/-- C1 at the tokens `ab`, `c` in strict mode. -/
theorem C1_token_line_accepted_witness :
    (run (line_script ["c"]) (start false true 'x' (line "ab" ["c"]))).1
      = line_values "ab" ["c"] ∧
    (run (line_script ["c"]) (start false true 'x' (line "ab" ["c"]))).2.status = 42 ∧
    (run (line_script ["c"]) (start false true 'x' (line "ab" ["c"]))).2.cout = "" :=
  C1_token_line_accepted false true 'x' "ab" ["c"] (by decide)

/-- C2, which the code breaks: the byte `0xFF` is not whitespace, yet with it as the next
character the destructor exits with status 42 in every mode, also at the end of a run
that has read everything before it. -/
theorem C2_finish_accepts_byte_ff (case_sensitive ws : Bool) (uninit : Char) :
    isspace '\xff' = false ∧
    finish (start case_sensitive ws uninit ['\xff']) = ⟨42, "", ""⟩ ∧
    run [Op.read_string "string", Op.newline]
        (start case_sensitive ws uninit ['a', '\n', '\xff'])
      = ([Val.str "a", Val.unit], ⟨42, "", "read newline!\n"⟩) := by
  cases case_sensitive <;> cases ws <;> exact ⟨by decide, rfl, rfl⟩

/-- C3: the destructor exits with status 42 when no character is left, in both modes, and
in lenient mode when only whitespace is left; in strict mode, on a stream over a fixed
character sequence whose next character is a whitespace character `w`, it exits with
status 43 and the line `Expected EOF, found "w"`. -/
theorem C3_finish_at_end (v : Validator) :
    (v.inp.buf = [] → finish v = ⟨42, "", v.cerr⟩) ∧
    (v.ws = false → (∀ c ∈ v.inp.buf, isspace c = true) → finish v = ⟨42, "", v.cerr⟩) ∧
    (v.ws = true → v.inp.wf = true → ∀ w r, v.inp.buf = w :: r → isspace w = true →
      finish v = ⟨43, "Expected EOF, found \"" ++ String.singleton w ++ "\"\n", v.cerr⟩) := by
  refine ⟨fun h => finish_nil v h, fun hw h => finish_lenient_space v hw h, ?_⟩
  intro hw hwf w r hb hs
  rw [finish_strict_cons v hw hwf w r hb (isspace_ne_ff w hs)]
  simp only [ret_WA, quoted, String.append_assoc]
  rfl

/-- C3 on the empty stream, on a stream of whitespace in lenient mode and on a
stream that starts with a newline in strict mode. -/
theorem C3_finish_at_end_witness :
    finish (start false true 'x' []) = ⟨42, "", ""⟩ ∧
    finish (start false false 'x' [' ', '\n', '\t']) = ⟨42, "", ""⟩ ∧
    finish (start false true 'x' ['\n', 'a'])
      = ⟨43, "Expected EOF, found \"" ++ String.singleton '\n' ++ "\"\n", ""⟩ :=
  ⟨(C3_finish_at_end (start false true 'x' [])).1 rfl,
   (C3_finish_at_end (start false false 'x' [' ', '\n', '\t'])).2.1 rfl (by decide),
   (C3_finish_at_end (start false true 'x' ['\n', 'a'])).2.2 rfl rfl '\n' ['a'] rfl rfl⟩

/-- C4, which the code breaks: `lowercase` converts when `case_sensitive` is set and
leaves the string alone when it is not.  Without `case_sensitive`, `test_string("Yes")`
rejects `yes` and `YES`; with it, `yes` and `YES` are accepted. -/
theorem C4_test_string_case_inverted (ws : Bool) (uninit : Char) :
    test_string (start false ws uninit ['y', 'e', 's']) "Yes"
      = Outcome.exit ⟨43, "Expected Yes, found yes\n", ""⟩ ∧
    test_string (start false ws uninit ['Y', 'E', 'S']) "Yes"
      = Outcome.exit ⟨43, "Expected Yes, found YES\n", ""⟩ ∧
    test_string (start true ws uninit ['y', 'e', 's']) "Yes"
      = Outcome.ok () ⟨true, ws, ⟨[], true, false⟩, "", uninit⟩ ∧
    test_string (start true ws uninit ['Y', 'E', 'S']) "Yes"
      = Outcome.ok () ⟨true, ws, ⟨[], true, false⟩, "", uninit⟩ := by
  cases ws <;> exact ⟨rfl, rfl, rfl, rfl⟩

/-- C5: when `read_string` returns, in either mode, the token is non-empty and free of
whitespace, it stands in the stream verbatim, preceded only by the whitespace that was
skipped (none in strict mode) and followed by the stream that is left, and that rest is
empty or begins with a whitespace character. -/
theorem C5_read_string_token (v : Validator) (wanted s : String) (v1 : Validator)
    (h : read_string v wanted = Outcome.ok s v1) :
    s.data ≠ [] ∧ (∀ c ∈ s.data, isspace c = false) ∧
    (∃ pre, v.inp.buf = pre ++ s.data ++ v1.inp.buf ∧ (∀ c ∈ pre, isspace c = true) ∧
      (v.ws = true → pre = [])) ∧
    (v1.inp.buf = [] ∨ ∃ c r, v1.inp.buf = c :: r ∧ isspace c = true) := by
  obtain ⟨pre, c, r, hb, hpre, hstrict, hc, hs, hv1⟩ := read_string_ok_inv v wanted s v1 h
  subst hs hv1
  refine ⟨by simp, ?_, ⟨pre, ?_, hpre, hstrict⟩, ?_⟩
  · intro x hx
    rcases List.mem_cons.mp hx with hx | hx
    · rw [hx]; exact hc
    · simpa using List.mem_takeWhile_imp hx
  · have h2 := List.takeWhile_append_dropWhile (fun x => !isspace x) r
    simp only [List.append_assoc, List.cons_append, h2, hb]
  · cases hd : List.dropWhile (fun x => !isspace x) r with
    | nil => exact Or.inl rfl
    | cons d r1 =>
      refine Or.inr ⟨d, r1, rfl, ?_⟩
      simpa using dropWhile_head_neg r d r1 hd

/-- C5 on the stream `"  Ab c"` in lenient mode. -/
theorem C5_read_string_token_witness :
    ("Ab" : String).data ≠ [] ∧ (∀ c ∈ ("Ab" : String).data, isspace c = false) ∧
    (∃ pre, (start false false 'x' [' ', ' ', 'A', 'b', ' ', 'c']).inp.buf
        = pre ++ ("Ab" : String).data
          ++ (Validator.mk false false ⟨[' ', 'c'], false, false⟩ "" 'x').inp.buf ∧
      (∀ c ∈ pre, isspace c = true) ∧
      ((start false false 'x' [' ', ' ', 'A', 'b', ' ', 'c']).ws = true → pre = [])) ∧
    ((Validator.mk false false ⟨[' ', 'c'], false, false⟩ "" 'x').inp.buf = [] ∨
      ∃ c r, (Validator.mk false false ⟨[' ', 'c'], false, false⟩ "" 'x').inp.buf = c :: r ∧
        isspace c = true) :=
  C5_read_string_token (start false false 'x' [' ', ' ', 'A', 'b', ' ', 'c']) "string" "Ab"
    ⟨false, false, ⟨[' ', 'c'], false, false⟩, "", 'x'⟩ rfl

/-- C6: on a stream over a fixed character sequence `read_string(wanted)` exits with
`Expected <wanted>, found whitespace` in strict mode when the next character is
whitespace, with `Expected <wanted>, found nothing` when no token is left (strict: no
character left; lenient: only whitespace left), and returns in the two remaining cases
(strict: the next character is not whitespace; lenient: some character is not
whitespace).  The label defaults to `string`. -/
theorem C6_read_string_rejections (v : Validator) (wanted : String) (hwf : v.inp.wf = true) :
    (v.ws = true → ∀ c r, v.inp.buf = c :: r → isspace c = true →
      read_string v wanted
        = Outcome.exit ⟨43, "Expected " ++ wanted ++ ", found whitespace\n", v.cerr⟩) ∧
    (v.ws = true → v.inp.buf = [] →
      read_string v wanted
        = Outcome.exit ⟨43, "Expected " ++ wanted ++ ", found nothing\n", v.cerr⟩) ∧
    (v.ws = false → (∀ c ∈ v.inp.buf, isspace c = true) →
      read_string v wanted
        = Outcome.exit ⟨43, "Expected " ++ wanted ++ ", found nothing\n", v.cerr⟩) ∧
    (v.ws = true → ∀ c r, v.inp.buf = c :: r → isspace c = false →
      ∃ s v1, read_string v wanted = Outcome.ok s v1) ∧
    (v.ws = false → (∃ c ∈ v.inp.buf, isspace c = false) →
      ∃ s v1, read_string v wanted = Outcome.ok s v1) ∧
    read_string v = read_string v "string" := by
  refine ⟨?_, fun hw hb => read_string_strict_nil v wanted hw hb,
    fun hw hb => read_string_lenient_nil v wanted hw hb, ?_, ?_, rfl⟩
  · intro hw c r hb hc
    exact read_string_strict_space v wanted hw
      (wf_good_of_mem v.inp c (by simp [hb]) hwf) c r hb hc
  · intro hw c r hb hc
    exact ⟨_, _, read_string_strict_token v wanted hw
      (wf_good_of_mem v.inp c (by simp [hb]) hwf) c r hb hc⟩
  · intro hw ⟨c, hmem, hc⟩
    cases hd : List.dropWhile isspace v.inp.buf with
    | nil =>
      have := List.dropWhile_eq_nil_iff.mp hd c hmem
      rw [hc] at this
      cases this
    | cons d r =>
      exact ⟨_, _, read_string_lenient_token v wanted hw (wf_good_of_mem v.inp c hmem hwf) d r hd⟩

/-- C6 on small streams: one instance of each of the five cases. -/
theorem C6_read_string_rejections_witness :
    read_string (start false true 'x' [' ', 'a']) "tok"
      = Outcome.exit ⟨43, "Expected " ++ "tok" ++ ", found whitespace\n", ""⟩ ∧
    read_string (start false true 'x' []) "tok"
      = Outcome.exit ⟨43, "Expected " ++ "tok" ++ ", found nothing\n", ""⟩ ∧
    read_string (start false false 'x' [' ', '\n']) "tok"
      = Outcome.exit ⟨43, "Expected " ++ "tok" ++ ", found nothing\n", ""⟩ ∧
    (∃ s v1, read_string (start false true 'x' ['a', ' ']) "tok" = Outcome.ok s v1) ∧
    (∃ s v1, read_string (start false false 'x' [' ', 'a']) "tok" = Outcome.ok s v1) :=
  ⟨(C6_read_string_rejections (start false true 'x' [' ', 'a']) "tok" rfl).1 rfl
      ' ' ['a'] rfl rfl,
   (C6_read_string_rejections (start false true 'x' []) "tok" rfl).2.1 rfl rfl,
   (C6_read_string_rejections (start false false 'x' [' ', '\n']) "tok" rfl).2.2.1 rfl
      (by decide),
   (C6_read_string_rejections (start false true 'x' ['a', ' ']) "tok" rfl).2.2.2.1 rfl
      'a' [' '] rfl rfl,
   (C6_read_string_rejections (start false false 'x' [' ', 'a']) "tok" rfl).2.2.2.2.1 rfl
      ⟨'a', by decide, rfl⟩⟩

/-- C7: on a stream whose next token is an optional `-` followed by one or more decimal
digits and denotes a value between -2^63 and 2^63-1, `read_long_long()` returns that
value, in both modes, and leaves the stream right after the token.  Leading zeros and a
negative zero are read: `007` gives 7, `-0` gives 0, `-007` gives -7. -/
theorem C7_read_long_long_value (case_sensitive ws : Bool) (uninit : Char) (cerr : String)
    (pre ds rest : List Char) (neg : Bool)
    (hpre : ∀ c ∈ pre, isspace c = true) (hstrict : ws = true → pre = [])
    (hds : ds ≠ []) (hdig : ∀ c ∈ ds, c ∈ "0123456789".data)
    (hrest : rest = [] ∨ ∃ c r, rest = c :: r ∧ isspace c = true)
    (hlo : -(2 ^ 63 : Int) ≤ int_value neg ds) (hhi : int_value neg ds ≤ 2 ^ 63 - 1) :
    read_long_long ⟨case_sensitive, ws, ⟨pre ++ int_token neg ds ++ rest, false, false⟩,
        cerr, uninit⟩
      = Outcome.ok (int_value neg ds)
          ⟨case_sensitive, ws, ⟨rest, rest.isEmpty, false⟩, cerr, uninit⟩ ∧
    read_long_long (start case_sensitive ws uninit "007".data)
      = Outcome.ok 7 ⟨case_sensitive, ws, ⟨[], true, false⟩, "", uninit⟩ ∧
    read_long_long (start case_sensitive ws uninit "-0".data)
      = Outcome.ok 0 ⟨case_sensitive, ws, ⟨[], true, false⟩, "", uninit⟩ ∧
    read_long_long (start case_sensitive ws uninit "-007".data)
      = Outcome.ok (-7) ⟨case_sensitive, ws, ⟨[], true, false⟩, "", uninit⟩ := by
  refine ⟨?_, ?_⟩
  · rw [read_long_long_token case_sensitive ws uninit cerr pre ds rest neg hpre hstrict hds
      (fun c hc => (isdigit_iff c).mpr (hdig c hc)) hrest]
    have h : ¬ (int_value neg ds < LLONG_MIN ∨ LLONG_MAX < int_value neg ds) := by
      simp only [LLONG_MIN, LLONG_MAX]
      norm_num at hlo hhi
      omega
    rw [if_neg h]
  · exact ⟨read_long_long_start_ok case_sensitive ws uninit false "007".data 7
        (by decide) (by decide) (by decide) (by decide),
      read_long_long_start_ok case_sensitive ws uninit true "0".data 0
        (by decide) (by decide) (by decide) (by decide),
      read_long_long_start_ok case_sensitive ws uninit true "007".data (-7)
        (by decide) (by decide) (by decide) (by decide)⟩

/-- C7 on the stream `" -42\n"` in lenient mode. -/
theorem C7_read_long_long_value_witness :
    read_long_long ⟨false, false, ⟨[' '] ++ int_token true ['4', '2'] ++ ['\n'], false, false⟩,
        "", 'x'⟩
      = Outcome.ok (int_value true ['4', '2'])
          ⟨false, false, ⟨['\n'], List.isEmpty ['\n'], false⟩, "", 'x'⟩ ∧
    read_long_long (start false false 'x' "007".data)
      = Outcome.ok 7 ⟨false, false, ⟨[], true, false⟩, "", 'x'⟩ ∧
    read_long_long (start false false 'x' "-0".data)
      = Outcome.ok 0 ⟨false, false, ⟨[], true, false⟩, "", 'x'⟩ ∧
    read_long_long (start false false 'x' "-007".data)
      = Outcome.ok (-7) ⟨false, false, ⟨[], true, false⟩, "", 'x'⟩ :=
  C7_read_long_long_value false false 'x' "" [' '] ['4', '2'] ['\n'] true (by decide)
    (by decide) (by decide) (by decide) (Or.inr ⟨'\n', [], rfl, rfl⟩) (by decide) (by decide)

/-- C8: on a stream whose next token is an optional `-` followed by one or more decimal
digits, `read_long_long()` exits with `Number <token> does not fit in a long long!`
exactly when the value the token denotes is below -2^63 or above 2^63-1, and returns the
value otherwise.  The two extreme values are returned; one beyond either of them, and
`99999999999999999999`, end the run with that line. -/
theorem C8_read_long_long_overflow (case_sensitive ws : Bool) (uninit : Char) (cerr : String)
    (pre ds rest : List Char) (neg : Bool)
    (hpre : ∀ c ∈ pre, isspace c = true) (hstrict : ws = true → pre = [])
    (hds : ds ≠ []) (hdig : ∀ c ∈ ds, c ∈ "0123456789".data)
    (hrest : rest = [] ∨ ∃ c r, rest = c :: r ∧ isspace c = true) :
    (read_long_long ⟨case_sensitive, ws, ⟨pre ++ int_token neg ds ++ rest, false, false⟩,
        cerr, uninit⟩
      = Outcome.exit ⟨43, "Number " ++ String.mk (int_token neg ds)
          ++ " does not fit in a long long!\n", cerr⟩
      ↔ (int_value neg ds < -(2 ^ 63 : Int) ∨ 2 ^ 63 - 1 < int_value neg ds)) ∧
    (¬ (int_value neg ds < -(2 ^ 63 : Int) ∨ 2 ^ 63 - 1 < int_value neg ds) →
      read_long_long ⟨case_sensitive, ws, ⟨pre ++ int_token neg ds ++ rest, false, false⟩,
          cerr, uninit⟩
        = Outcome.ok (int_value neg ds)
            ⟨case_sensitive, ws, ⟨rest, rest.isEmpty, false⟩, cerr, uninit⟩) ∧
    read_long_long (start case_sensitive ws uninit "9223372036854775807".data)
      = Outcome.ok 9223372036854775807
          ⟨case_sensitive, ws, ⟨[], true, false⟩, "", uninit⟩ ∧
    read_long_long (start case_sensitive ws uninit "-9223372036854775808".data)
      = Outcome.ok (-9223372036854775808)
          ⟨case_sensitive, ws, ⟨[], true, false⟩, "", uninit⟩ ∧
    read_long_long (start case_sensitive ws uninit "9223372036854775808".data)
      = Outcome.exit ⟨43, "Number 9223372036854775808 does not fit in a long long!\n", ""⟩ ∧
    read_long_long (start case_sensitive ws uninit "-9223372036854775809".data)
      = Outcome.exit ⟨43, "Number -9223372036854775809 does not fit in a long long!\n", ""⟩ ∧
    read_long_long (start case_sensitive ws uninit "99999999999999999999".data)
      = Outcome.exit ⟨43, "Number 99999999999999999999 does not fit in a long long!\n", ""⟩ := by
  have hrange : (int_value neg ds < LLONG_MIN ∨ LLONG_MAX < int_value neg ds) ↔
      (int_value neg ds < -(2 ^ 63 : Int) ∨ 2 ^ 63 - 1 < int_value neg ds) := by
    simp only [LLONG_MIN, LLONG_MAX]
    norm_num
  have hrl := read_long_long_token case_sensitive ws uninit cerr pre ds rest neg hpre hstrict
    hds (fun c hc => (isdigit_iff c).mpr (hdig c hc)) hrest
  refine ⟨?_, ?_, ?_⟩
  · rw [hrl, ← hrange]
    constructor
    · intro h
      by_contra hn
      rw [if_neg hn] at h
      cases h
    · intro h
      rw [if_pos h]
  · intro h
    rw [hrl, if_neg (fun hn => h (hrange.mp hn))]
  · exact ⟨read_long_long_start_ok case_sensitive ws uninit false "9223372036854775807".data
        9223372036854775807 (by decide) (by decide) (by decide) (by decide),
      read_long_long_start_ok case_sensitive ws uninit true "9223372036854775808".data
        (-9223372036854775808) (by decide) (by decide) (by decide) (by decide),
      read_long_long_start_overflow case_sensitive ws uninit false "9223372036854775808".data _
        (by decide) (by decide) (by decide) (by decide),
      read_long_long_start_overflow case_sensitive ws uninit true "9223372036854775809".data _
        (by decide) (by decide) (by decide) (by decide),
      read_long_long_start_overflow case_sensitive ws uninit false "99999999999999999999".data _
        (by decide) (by decide) (by decide) (by decide)⟩

/-- C8 on the stream `"-9223372036854775809 "` in strict mode. -/
theorem C8_read_long_long_overflow_witness :
    read_long_long ⟨true, true,
        ⟨[] ++ int_token true "9223372036854775809".data ++ [' '], false, false⟩, "", 'x'⟩
      = Outcome.exit ⟨43, "Number " ++ String.mk (int_token true "9223372036854775809".data)
          ++ " does not fit in a long long!\n", ""⟩ :=
  (C8_read_long_long_overflow true true 'x' "" [] "9223372036854775809".data [' '] true
    (by decide) (by decide) (by decide) (by decide) (Or.inr ⟨' ', [], rfl, rfl⟩)).1.mpr
    (Or.inl (by decide))

/-- C9: when `read_long_long()` returns `x`, `read_long_long(low, high)` returns `x`
exactly when `low ≤ x ≤ high`, and otherwise exits with status 43 and the line
`Expected integer between <low> and <high>, found <x>`, the three numbers in decimal; with
`low > high` it exits with status 43 on every stream.  On `150` with the bounds 1 and 100
the line is `Expected integer between 1 and 100, found 150`. -/
theorem C9_read_long_long_range (v : Validator) (low high : Int) :
    (∀ x v1, read_long_long v = Outcome.ok x v1 →
      (read_long_long_range v low high = Outcome.ok x v1 ↔ low ≤ x ∧ x ≤ high) ∧
      (¬ (low ≤ x ∧ x ≤ high) →
        read_long_long_range v low high
          = Outcome.exit ⟨43, "Expected integer between " ++ to_string low ++ " and "
              ++ to_string high ++ ", found " ++ to_string x ++ "\n", v1.cerr⟩)) ∧
    (high < low → ∃ e, read_long_long_range v low high = Outcome.exit e ∧ e.status = 43) ∧
    (∀ (cs ws : Bool) (u : Char), read_long_long_range (start cs ws u "150".data) 1 100
      = Outcome.exit ⟨43, "Expected integer between 1 and 100, found 150\n", ""⟩) ∧
    to_string (-9223372036854775808) = "-9223372036854775808" ∧ to_string 0 = "0" := by
  have hrej : ∀ x v1, read_long_long v = Outcome.ok x v1 → ¬ (low ≤ x ∧ x ≤ high) →
      read_long_long_range v low high
        = Outcome.exit ⟨43, "Expected integer between " ++ to_string low ++ " and "
            ++ to_string high ++ ", found " ++ to_string x ++ "\n", v1.cerr⟩ := by
    intro x v1 h hn
    simp only [read_long_long_range, h, if_neg hn]
    rw [expected_found v1 _ _ (to_string_length x)]
    simp only [String.append_assoc]
    rw [← String.append_assoc "Expected " "integer between "]
    rfl
  refine ⟨?_, ?_, ?_, by decide, by decide⟩
  · intro x v1 h
    refine ⟨?_, hrej x v1 h⟩
    constructor
    · intro hok
      by_contra hn
      rw [hrej x v1 h hn] at hok
      cases hok
    · intro hb
      simp only [read_long_long_range, h, if_pos hb]
  · intro hlt
    cases hr : read_long_long v with
    | exit e =>
      refine ⟨e, ?_, read_long_long_exit_status v e hr⟩
      simp only [read_long_long_range, hr]
    | ok x v1 =>
      exact ⟨_, hrej x v1 hr (fun hb => by omega), rfl⟩
  · intro cs ws u
    have h150 := read_long_long_start_ok cs ws u false "150".data 150
      (by decide) (by decide) (by decide) (by decide)
    have h150' : read_long_long (start cs ws u "150".data)
        = Outcome.ok 150 ⟨cs, ws, ⟨[], true, false⟩, "", u⟩ := h150
    simp only [read_long_long_range, h150']
    rw [if_neg (by decide)]
    rfl

/-- C9 with the bounds 100 and 1, and on the stream `"42"` with the bounds 50 and 100. -/
theorem C9_read_long_long_range_witness :
    (∃ e, read_long_long_range (start false true 'x' "42".data) 100 1 = Outcome.exit e ∧
      e.status = 43) ∧
    read_long_long_range (start false true 'x' "42".data) 50 100
      = Outcome.exit ⟨43, "Expected integer between " ++ to_string 50 ++ " and "
          ++ to_string 100 ++ ", found " ++ to_string 42 ++ "\n", ""⟩ :=
  ⟨(C9_read_long_long_range (start false true 'x' "42".data) 100 1).2.1 (by decide),
   ((C9_read_long_long_range (start false true 'x' "42".data) 50 100).1 42
      ⟨false, true, ⟨[], true, false⟩, "", 'x'⟩ rfl).2 (by decide)⟩

/-- C10: for a non-empty token `s`, `is_int(s)` returns exactly when the first character
is `-` or a decimal digit and every later character is a decimal digit; it exits with
`Expected integer with leading digit or minus sign, found <s>` when the first character
fails and with `Expected integer, found <s>` when a later one does.  It returns on `-`,
`007` and `-0` and exits on `+5`, `abc`, `1a` and `--1`. -/
theorem C10_is_int_shape (v : Validator) (s : String) (c : Char) (cs : List Char)
    (hs : s.data = c :: cs) :
    (is_int v s = Outcome.ok () v ↔
      (c = '-' ∨ c ∈ "0123456789".data) ∧ ∀ x ∈ cs, x ∈ "0123456789".data) ∧
    (¬ (c = '-' ∨ c ∈ "0123456789".data) →
      is_int v s = Outcome.exit
        ⟨43, "Expected integer with leading digit or minus sign, found " ++ s ++ "\n", v.cerr⟩) ∧
    ((c = '-' ∨ c ∈ "0123456789".data) → ¬ (∀ x ∈ cs, x ∈ "0123456789".data) →
      is_int v s = Outcome.exit ⟨43, "Expected integer, found " ++ s ++ "\n", v.cerr⟩) ∧
    is_int v "-" = Outcome.ok () v ∧ is_int v "007" = Outcome.ok () v ∧
    is_int v "-0" = Outcome.ok () v ∧
    is_int v "+5" = Outcome.exit
      ⟨43, "Expected integer with leading digit or minus sign, found +5\n", v.cerr⟩ ∧
    is_int v "abc" = Outcome.exit
      ⟨43, "Expected integer with leading digit or minus sign, found abc\n", v.cerr⟩ ∧
    is_int v "1a" = Outcome.exit ⟨43, "Expected integer, found 1a\n", v.cerr⟩ ∧
    is_int v "--1" = Outcome.exit ⟨43, "Expected integer, found --1\n", v.cerr⟩ := by
  have hl : s.length ≠ 0 := by
    show s.data.length ≠ 0
    rw [hs]
    simp
  have hfirst : (c = '-' ∨ isdigit c = true) ↔ (c = '-' ∨ c ∈ "0123456789".data) := by
    rw [isdigit_iff]
  have hrest : (∀ x ∈ cs, isdigit x = true) ↔ ∀ x ∈ cs, x ∈ "0123456789".data :=
    forall₂_congr (fun x _ => isdigit_iff x)
  have hbad1 : ¬ (c = '-' ∨ c ∈ "0123456789".data) →
      is_int v s = Outcome.exit
        ⟨43, "Expected integer with leading digit or minus sign, found " ++ s ++ "\n", v.cerr⟩ := by
    intro hn
    rw [is_int_first v s c cs hs, if_neg (fun hp => hn (hfirst.mp hp))]
  have hbad2 : (c = '-' ∨ c ∈ "0123456789".data) → ¬ (∀ x ∈ cs, x ∈ "0123456789".data) →
      is_int v s = Outcome.exit ⟨43, "Expected integer, found " ++ s ++ "\n", v.cerr⟩ := by
    intro hp hn
    rw [is_int_first v s c cs hs, if_pos (hfirst.mpr hp)]
    exact is_int_rest_bad v s hl cs (fun hall => hn (hrest.mp hall))
  refine ⟨?_, hbad1, hbad2, rfl, rfl, rfl, rfl, rfl, rfl, rfl⟩
  constructor
  · intro hok
    by_contra hn
    by_cases hp : c = '-' ∨ c ∈ "0123456789".data
    · have hr : ¬ (∀ x ∈ cs, x ∈ "0123456789".data) := fun hall => hn ⟨hp, hall⟩
      rw [hbad2 hp hr] at hok
      cases hok
    · rw [hbad1 hp] at hok
      cases hok
  · intro ⟨hp, hall⟩
    rw [is_int_first v s c cs hs, if_pos (hfirst.mpr hp)]
    exact is_int_rest_ok v s cs (hrest.mpr hall)

/-- C10 on the token `12x`. -/
theorem C10_is_int_shape_witness :
    is_int (start false true 'x' []) "12x"
      = Outcome.exit ⟨43, "Expected integer, found " ++ "12x" ++ "\n", ""⟩ :=
  (C10_is_int_shape (start false true 'x' []) "12x" '1' ['2', 'x'] rfl).2.2.1
    (Or.inr (by decide)) (by decide)

/-- C11: when `read_string()` returns the token `s`, `read_string(min, max)` returns `s`
unchanged exactly when `min ≤ length(s) ≤ max`, and otherwise exits with status 43 and
`Expected String of length between <min> and <max>, found <s>`.  `read_string(3, 5)`
exits on `ab` and `abcdef` and returns `abc`, `abcd` and `abcde`. -/
theorem C11_read_string_len (v : Validator) (min max : Nat) (s : String) (v1 : Validator)
    (h : read_string v = Outcome.ok s v1) :
    (read_string_len v min max = Outcome.ok s v1 ↔ min ≤ s.length ∧ s.length ≤ max) ∧
    (¬ (min ≤ s.length ∧ s.length ≤ max) →
      read_string_len v min max
        = Outcome.exit ⟨43, "Expected String of length between " ++ to_string min ++ " and "
            ++ to_string max ++ ", found " ++ s ++ "\n", v1.cerr⟩) ∧
    (∀ (cs ws : Bool) (u : Char),
      read_string_len (start cs ws u "ab".data) 3 5
        = Outcome.exit ⟨43, "Expected String of length between 3 and 5, found ab\n", ""⟩ ∧
      read_string_len (start cs ws u "abcdef".data) 3 5
        = Outcome.exit ⟨43, "Expected String of length between 3 and 5, found abcdef\n", ""⟩ ∧
      read_string_len (start cs ws u "abc".data) 3 5
        = Outcome.ok "abc" ⟨cs, ws, ⟨[], true, false⟩, "", u⟩ ∧
      read_string_len (start cs ws u "abcd".data) 3 5
        = Outcome.ok "abcd" ⟨cs, ws, ⟨[], true, false⟩, "", u⟩ ∧
      read_string_len (start cs ws u "abcde".data) 3 5
        = Outcome.ok "abcde" ⟨cs, ws, ⟨[], true, false⟩, "", u⟩) := by
  have hrej : ¬ (min ≤ s.length ∧ s.length ≤ max) →
      read_string_len v min max
        = Outcome.exit ⟨43, "Expected String of length between " ++ to_string min ++ " and "
            ++ to_string max ++ ", found " ++ s ++ "\n", v1.cerr⟩ := by
    intro hn
    have hc : s.length < min ∨ s.length > max := by omega
    simp only [read_string_len, h, if_pos hc]
    rw [expected_found v1 _ s (read_string_ok_length v "string" s v1 h)]
    simp only [String.append_assoc]
    rw [← String.append_assoc "Expected " "String of length between "]
    rfl
  refine ⟨?_, hrej, ?_⟩
  · constructor
    · intro hok
      by_contra hn
      rw [hrej hn] at hok
      cases hok
    · intro hb
      have hc : ¬ (s.length < min ∨ s.length > max) := by omega
      simp only [read_string_len, h, if_neg hc]
  · intro cs ws u
    refine ⟨?_, ?_, ?_, ?_, ?_⟩
    · rw [read_string_len_start cs ws u 3 5 "ab".data (by decide) (by decide),
        if_pos (by decide)]
      rfl
    · rw [read_string_len_start cs ws u 3 5 "abcdef".data (by decide) (by decide),
        if_pos (by decide)]
      rfl
    · rw [read_string_len_start cs ws u 3 5 "abc".data (by decide) (by decide),
        if_neg (by decide)]
    · rw [read_string_len_start cs ws u 3 5 "abcd".data (by decide) (by decide),
        if_neg (by decide)]
    · rw [read_string_len_start cs ws u 3 5 "abcde".data (by decide) (by decide),
        if_neg (by decide)]

/-- C11 on the stream `"abcdefg x"` in lenient mode with the bounds 2 and 6. -/
theorem C11_read_string_len_witness :
    read_string_len (start false false 'x' "abcdefg x".data) 2 6
      = Outcome.exit ⟨43, "Expected String of length between " ++ to_string (2 : Nat) ++ " and "
          ++ to_string (6 : Nat) ++ ", found " ++ "abcdefg" ++ "\n", ""⟩ :=
  (C11_read_string_len (start false false 'x' "abcdefg x".data) 2 6 "abcdefg"
    ⟨false, false, ⟨" x".data, false, false⟩, "", 'x'⟩ rfl).2.1 (by decide)

/-- C12: in strict mode, on a stream with next character `c`, `space()` returns exactly
when `c` is a space and `newline()` exactly when `c` is a newline; the call then has
consumed that one character, and otherwise it exits with status 43 and
`Expected space, found "c"`, respectively `Expected newline, found "c"`.  In lenient mode
both calls return on every stream and leave the stream as it is. -/
theorem C12_space_newline (v : Validator) :
    (v.ws = true → v.inp.wf = true → ∀ c r, v.inp.buf = c :: r →
      ((∃ v1, space v = Outcome.ok () v1) ↔ c = ' ') ∧
      (c = ' ' → ∃ v1, space v = Outcome.ok () v1 ∧ v1.inp.buf = r) ∧
      (c ≠ ' ' → space v = Outcome.exit
        ⟨43, "Expected space, found \"" ++ String.singleton c ++ "\"\n", v.cerr⟩) ∧
      ((∃ v1, newline v = Outcome.ok () v1) ↔ c = '\n') ∧
      (c = '\n' → ∃ v1, newline v = Outcome.ok () v1 ∧ v1.inp.buf = r) ∧
      (c ≠ '\n' → newline v = Outcome.exit
        ⟨43, "Expected newline, found \"" ++ String.singleton c ++ "\"\n", v.cerr⟩)) ∧
    (v.ws = false →
      (∃ v1, space v = Outcome.ok () v1 ∧ v1.inp = v.inp) ∧
      (∃ v1, newline v = Outcome.ok () v1 ∧ v1.inp = v.inp)) := by
  refine ⟨?_, ?_⟩
  · intro hw hwf c r hb
    have hs := space_strict_cons v hw hwf c r hb
    have hn := newline_strict_cons v hw hwf c r hb
    refine ⟨?_, ?_, ?_, ?_, ?_, ?_⟩
    · constructor
      · intro ⟨v1, h1⟩
        by_contra hc
        rw [hs, if_neg hc] at h1
        cases h1
      · intro hc
        rw [hs, if_pos hc]
        exact ⟨_, rfl⟩
    · intro hc
      rw [hs, if_pos hc]
      exact ⟨_, rfl, rfl⟩
    · intro hc
      rw [hs, if_neg hc]
    · constructor
      · intro ⟨v1, h1⟩
        by_contra hc
        rw [hn, if_neg hc] at h1
        cases h1
      · intro hc
        rw [hn, if_pos hc]
        exact ⟨_, rfl⟩
    · intro hc
      rw [hn, if_pos hc]
      exact ⟨_, rfl, rfl⟩
    · intro hc
      rw [hn, if_neg hc]
  · intro hw
    rw [space_lenient v hw, newline_lenient v hw]
    exact ⟨⟨_, rfl, rfl⟩, ⟨_, rfl, rfl⟩⟩

/-- C12 where a tab stands and `newline()` is called in strict mode, and `space()` on the
empty stream in lenient mode. -/
theorem C12_space_newline_witness :
    newline (start false true 'x' ['\t', 'a'])
      = Outcome.exit ⟨43, "Expected newline, found \"" ++ String.singleton '\t' ++ "\"\n", ""⟩ ∧
    (∃ v1, space (start false false 'x' []) = Outcome.ok () v1 ∧
      v1.inp = (start false false 'x' []).inp) :=
  ⟨((C12_space_newline (start false true 'x' ['\t', 'a'])).1 rfl rfl '\t' ['a'] rfl).2.2.2.2.2
      (by decide),
   ((C12_space_newline (start false false 'x' [])).2 rfl).1⟩

/-- C13, which the code breaks: at the end of the stream `in >> c` extracts nothing and
the test reads the uninitialised `c`.  When that holds a newline, `newline()` returns
in strict mode on the exhausted stream, and the script `read_string, newline,
read_string, newline` on `"a\nb"` ends with status 42; the same happens to `space()` when
it holds a space.  With any other value the call exits citing that value as found. -/
theorem C13_end_of_stream_reads_uninitialised (case_sensitive : Bool) :
    newline (start case_sensitive true '\n' [])
      = Outcome.ok () ⟨case_sensitive, true, ⟨[], true, true⟩, "read newline!\n", '\n'⟩ ∧
    space (start case_sensitive true ' ' [])
      = Outcome.ok () ⟨case_sensitive, true, ⟨[], true, true⟩, "read space!\n", ' '⟩ ∧
    run [Op.read_string "string", Op.newline, Op.read_string "string", Op.newline]
        (start case_sensitive true '\n' "a\nb".data)
      = ([Val.str "a", Val.unit, Val.str "b", Val.unit],
          ⟨42, "", "read newline!\nread newline!\n"⟩) ∧
    newline (start case_sensitive true 'q' [])
      = Outcome.exit ⟨43, "Expected newline, found \"q\"\n", ""⟩ := by
  cases case_sensitive <;> exact ⟨rfl, rfl, rfl, rfl⟩

/-- C14: on a stream over a fixed character sequence, `peek(c)` in strict mode returns
whether the next character exists and equals `c` and leaves the characters of the stream
as they are (the whole state, when a character is left); in lenient mode it removes the leading whitespace, returns whether a
character remains and the first one equals `c`, and leaves that character in the
stream.  It returns false when no character is left, and in lenient mode for every
whitespace character `c`. -/
theorem C14_peek (v : Validator) (c : Char) (hwf : v.inp.wf = true) :
    (v.ws = true → ∃ e f, peek v c = Outcome.ok (decide (v.inp.buf.head? = some c))
      ⟨v.case_sensitive, v.ws, ⟨v.inp.buf, e, f⟩, v.cerr, v.uninit⟩) ∧
    (v.ws = false → ∃ e f,
      peek v c = Outcome.ok (decide ((v.inp.buf.dropWhile isspace).head? = some c))
        ⟨v.case_sensitive, v.ws, ⟨v.inp.buf.dropWhile isspace, e, f⟩, v.cerr, v.uninit⟩) ∧
    (v.ws = true → v.inp.buf ≠ [] →
      peek v c = Outcome.ok (decide (v.inp.buf.head? = some c)) v) ∧
    (v.inp.buf = [] → ∃ v1, peek v c = Outcome.ok false v1) ∧
    (v.ws = false → isspace c = true → ∃ v1, peek v c = Outcome.ok false v1) := by
  refine ⟨fun hw => peek_strict v c hw hwf, fun hw => peek_lenient v c hw hwf,
    fun hw hb => peek_strict_cons v c hw hwf hb, ?_, ?_⟩
  · intro hb
    cases hw : v.ws
    · obtain ⟨e, f, h⟩ := peek_lenient v c hw hwf
      rw [h, hb]
      exact ⟨_, rfl⟩
    · obtain ⟨e, f, h⟩ := peek_strict v c hw hwf
      rw [h, hb]
      exact ⟨_, rfl⟩
  · intro hw hc
    obtain ⟨e, f, h⟩ := peek_lenient v c hw hwf
    have hv : decide ((List.dropWhile isspace v.inp.buf).head? = some c) = false := by
      cases hd : List.dropWhile isspace v.inp.buf with
      | nil => rfl
      | cons d r =>
        have hdn : isspace d = false := dropWhile_head_neg _ d r hd
        have hne : d ≠ c := by
          intro hdc
          rw [hdc, hc] at hdn
          cases hdn
        simp [hne]
    rw [hv] at h
    exact ⟨_, h⟩

/-- C14 on the stream `"  ab"`: `peek('a')` in lenient and in strict mode. -/
theorem C14_peek_witness :
    (∃ e f, peek (start false false 'x' "  ab".data) 'a'
      = Outcome.ok (decide ((List.dropWhile isspace "  ab".data).head? = some 'a'))
          ⟨false, false, ⟨List.dropWhile isspace "  ab".data, e, f⟩, "", 'x'⟩) ∧
    (∃ e f, peek (start false true 'x' "  ab".data) 'a'
      = Outcome.ok (decide (("  ab".data).head? = some 'a'))
          ⟨false, true, ⟨"  ab".data, e, f⟩, "", 'x'⟩) :=
  ⟨(C14_peek (start false false 'x' "  ab".data) 'a' rfl).2.1 rfl,
   (C14_peek (start false true 'x' "  ab".data) 'a' rfl).1 rfl⟩

/-- C15: in lenient mode, for every script of calls (`space`, `newline`, `read_string`,
`read_string(min, max)`, `test_string`, `read_long_long`, `read_long_long(low, high)`,
`peek`) followed by the destructor, the runs on two streams with the same list of
whitespace-separated tokens return the same values from every call and end with the same
exit status, the same text on `cout` and the same text on `cerr`. -/
theorem C15_lenient_runs_depend_on_tokens (ops : List Op) (case_sensitive : Bool)
    (uninit : Char) (s1 s2 : List Char) (h : tokens s1 = tokens s2) :
    run ops (start case_sensitive false uninit s1)
      = run ops (start case_sensitive false uninit s2) :=
  run_sim ops _ _ ⟨rfl, rfl, rfl, rfl, rfl, rfl, rfl, h⟩

/-- C15 on the streams `"12  ab\n"` and `"\t12\nab"`. -/
theorem C15_lenient_runs_depend_on_tokens_witness :
    run [Op.read_long_long_range 1 20, Op.newline, Op.peek 'a', Op.test_string "ab"]
        (start false false 'x' "12  ab\n".data)
      = run [Op.read_long_long_range 1 20, Op.newline, Op.peek 'a', Op.test_string "ab"]
        (start false false 'x' "\t12\nab".data) :=
  C15_lenient_runs_depend_on_tokens
    [Op.read_long_long_range 1 20, Op.newline, Op.peek 'a', Op.test_string "ab"]
    false 'x' "12  ab\n".data "\t12\nab".data (by decide)

/-- C16: `expected(exp, found)` ends the process with status 43, which is not the status
42 of `AC`: it prints `Expected <exp>, found <found>` when `found` is not empty, `<exp>`
alone when only `found` is empty, and nothing when both are.  `WA` prints its arguments
one after the other as one line and ends with status 43.  Every call that ends the
process does so with status 43, so a run with status 42 has returned from all its calls
and got the status from the destructor. -/
theorem C16_verdict_reporting (v : Validator) (exp found : String) :
    (expected v exp found).status = 43 ∧ (AC v).status = 42 ∧ ret_WA ≠ ret_AC ∧
    (found ≠ "" →
      (expected v exp found).cout = "Expected " ++ exp ++ ", found " ++ found ++ "\n") ∧
    (found = "" → exp ≠ "" → (expected v exp found).cout = exp ++ "\n") ∧
    (found = "" → exp = "" → (expected v exp found).cout = "") ∧
    (∀ ts : List String, (WA_fold v ts).status = 43 ∧
      (WA_fold v ts).cout = String.join ts ++ "\n") ∧
    (∀ a b c : String, (WA_fold v [a, b, c]).cout = a ++ b ++ c ++ "\n") ∧
    (∀ t : String, WA v t = WA_fold v [t]) ∧
    (∀ (op : Op) (e : Exit), step op v = Outcome.exit e → e.status = 43) ∧
    (∀ ops : List Op, (run ops v).2.status = 42 →
      (run ops v).1.length = ops.length ∧ (run ops v).2.cout = "") ∧
    (∀ ops : List Op, (run ops v).2.status = 42 ∨ (run ops v).2.status = 43) := by
  have hlen : ∀ s : String, s ≠ "" → s.length ≠ 0 := by
    intro s hs hl
    apply hs
    apply String.ext
    exact List.length_eq_zero.mp hl
  refine ⟨expected_status v exp found, rfl, by decide, ?_, ?_, ?_, ?_, ?_, ?_, ?_, ?_, ?_⟩
  · intro hf
    rw [expected_found v exp found (hlen found hf)]
  · intro hf he
    subst hf
    simp [expected, hlen exp he]
  · intro hf he
    subst hf he
    rfl
  · intro ts
    exact ⟨rfl, rfl⟩
  · intro a b c
    simp [WA_fold]
  · intro t
    simp [WA, WA_fold]
  · intro op e h
    exact (step_exit_status op v e h).1
  · intro ops h
    rcases (run_inv ops v).2 with ⟨_, b, c⟩ | a
    · exact ⟨c, b⟩
    · rw [a] at h
      cases h
  · intro ops
    rcases (run_inv ops v).2 with ⟨a, _, _⟩ | a
    · exact Or.inl a
    · exact Or.inr a

/-- C16 for `expected("integer", "abc")`, `expected("only this", "")` and a run. -/
theorem C16_verdict_reporting_witness :
    (expected (start false true 'x' []) "integer" "abc").cout
      = "Expected " ++ "integer" ++ ", found " ++ "abc" ++ "\n" ∧
    (expected (start false true 'x' []) "only this" "").cout = "only this" ++ "\n" ∧
    (expected (start false true 'x' []) "" "").cout = "" ∧
    ((run [Op.read_string "string"] (start false true 'x' "ab".data)).1.length
        = [Op.read_string "string"].length ∧
      (run [Op.read_string "string"] (start false true 'x' "ab".data)).2.cout = "") :=
  ⟨(C16_verdict_reporting (start false true 'x' []) "integer" "abc").2.2.2.1 (by decide),
   (C16_verdict_reporting (start false true 'x' []) "only this" "").2.2.2.2.1 rfl (by decide),
   (C16_verdict_reporting (start false true 'x' []) "" "").2.2.2.2.2.1 rfl rfl,
   (C16_verdict_reporting (start false true 'x' "ab".data) "" "").2.2.2.2.2.2.2.2.2.2.1
     [Op.read_string "string"] (by decide)⟩

/-- C17 as stated fails: the lone minus sign passes `is_int`, and `read_long_long()` on
it ends in the branch for malformed syntax. -/
theorem C17_lone_minus_reaches_parsing_branch :
    is_int (start false true 'x' []) "-" = Outcome.ok () (start false true 'x' []) ∧
    read_long_long (start false true 'x' "-".data)
      = Outcome.exit ⟨43, "Parsing - as long long failed!\n", ""⟩ ∧
    read_long_long (start false false 'x' " - 5".data)
      = Outcome.exit ⟨43, "Parsing - as long long failed!\n", ""⟩ := by
  decide

/-- C17 amended: for a token `s` that `read_string` returned and `is_int` let pass,
`read_long_long()` ends with `Parsing <s> as long long failed!` exactly when `s` is the
lone minus sign `-`; for every other such token it returns a value or ends with
`Number <s> does not fit in a long long!`. -/
theorem C17_parsing_branch_iff_lone_minus (v : Validator) (s : String) (v1 : Validator)
    (h : read_string v "integer" = Outcome.ok s v1) (hi : is_int v1 s = Outcome.ok () v1) :
    (read_long_long v
        = Outcome.exit ⟨43, "Parsing " ++ s ++ " as long long failed!\n", v1.cerr⟩ ↔ s = "-") ∧
    (s ≠ "-" → (∃ x, read_long_long v = Outcome.ok x v1) ∨
      read_long_long v
        = Outcome.exit ⟨43, "Number " ++ s ++ " does not fit in a long long!\n", v1.cerr⟩) := by
  have hne : s.data ≠ [] := by
    intro h0
    exact read_string_ok_length v "integer" s v1 h (by simp [String.length, h0])
  have hrl : read_long_long v =
      match stoll s with
      | Stoll.value x => Outcome.ok x v1
      | Stoll.out_of_range =>
        Outcome.exit (WA v1 ("Number " ++ s ++ " does not fit in a long long!"))
      | Stoll.invalid_argument =>
        Outcome.exit (WA v1 ("Parsing " ++ s ++ " as long long failed!")) := by
    simp only [read_long_long, h, hi]
  have hother : s ≠ "-" → (∃ x, read_long_long v = Outcome.ok x v1) ∨
      read_long_long v
        = Outcome.exit ⟨43, "Number " ++ s ++ " does not fit in a long long!\n", v1.cerr⟩ := by
    intro hs
    rcases is_int_ok_token v1 v1 s hne hi with h1 | ⟨neg, ds, hds, hdig, h1⟩
    · exact absurd h1 hs
    · rw [hrl, h1, stoll_int_token neg ds hds hdig]
      split_ifs
      · right
        simp only [WA, ret_WA, String.append_assoc]
        rfl
      · left
        exact ⟨_, rfl⟩
  refine ⟨?_, hother⟩
  constructor
  · intro hp
    by_contra hs
    rcases hother hs with ⟨x, hx⟩ | hx
    · rw [hx] at hp
      cases hp
    · rw [hx] at hp
      injection hp with hp
      have hd := congrArg (fun e => e.cout.data.head?) hp
      simp [String.data_append] at hd
  · intro hs
    subst hs
    rw [hrl, stoll_lone_minus]
    rfl

/-- C17 amended, on the stream `"-"` and on the stream `"12"`. -/
theorem C17_parsing_branch_iff_lone_minus_witness :
    read_long_long (start false true 'x' "-".data)
      = Outcome.exit ⟨43, "Parsing " ++ "-" ++ " as long long failed!\n", ""⟩ ∧
    ((∃ x, read_long_long (start false true 'x' "12".data)
        = Outcome.ok x ⟨false, true, ⟨[], true, false⟩, "", 'x'⟩) ∨
      read_long_long (start false true 'x' "12".data)
        = Outcome.exit ⟨43, "Number " ++ "12" ++ " does not fit in a long long!\n", ""⟩) :=
  ⟨(C17_parsing_branch_iff_lone_minus (start false true 'x' "-".data) "-"
      ⟨false, true, ⟨[], true, false⟩, "", 'x'⟩ rfl rfl).1.mpr rfl,
   (C17_parsing_branch_iff_lone_minus (start false true 'x' "12".data) "12"
      ⟨false, true, ⟨[], true, false⟩, "", 'x'⟩ rfl rfl).2 (by decide)⟩

/-- C18 as stated fails: with `case_sensitive` set, `test_string("Yes")` on the token `NO`
prints the two strings as `lowercase` changed them, not as they were passed and read. -/
theorem C18_diagnostic_shows_lowercased :
    test_string (start true true 'x' "NO".data) "Yes"
      = Outcome.exit ⟨43, "Expected yes, found no\n", ""⟩ ∧
    test_string (start true true 'x' "NO".data) "Yes"
      ≠ Outcome.exit ⟨43, "Expected Yes, found NO\n", ""⟩ := by
  decide

/-- C18 amended: when `read_string()` returns the token `s` and `test_string(t)` exits,
the exit has status 43 and the line `Expected <t'>, found <s'>` where `t'` and `s'` are
`t` and `s` as `lowercase`, working in place, left them for the comparison: each is the
string itself or the string with `tolower` applied to every character, and the strings
are cited verbatim where `lowercase` leaves them unchanged. -/
theorem C18_test_string_diagnostic (v : Validator) (t s : String) (v1 : Validator) (e : Exit)
    (h : read_string v = Outcome.ok s v1) (hr : test_string v t = Outcome.exit e) :
    e = ⟨43, "Expected " ++ lowercase v1 t ++ ", found " ++ lowercase v1 s ++ "\n", v1.cerr⟩ ∧
    (lowercase v1 t = t ∨ lowercase v1 t = String.mk (t.data.map tolower)) ∧
    (lowercase v1 s = s ∨ lowercase v1 s = String.mk (s.data.map tolower)) ∧
    (lowercase v1 t = t → lowercase v1 s = s →
      e = ⟨43, "Expected " ++ t ++ ", found " ++ s ++ "\n", v1.cerr⟩) := by
  have hl : (lowercase v1 s).length ≠ 0 := by
    rw [lowercase_length]
    exact read_string_ok_length v "string" s v1 h
  have he : e = ⟨43, "Expected " ++ lowercase v1 t ++ ", found " ++ lowercase v1 s ++ "\n",
      v1.cerr⟩ := by
    simp only [test_string, h] at hr
    split_ifs at hr
    injection hr with hr
    rw [← hr, expected_found v1 _ _ hl]
  refine ⟨he, lowercase_cases v1 t, lowercase_cases v1 s, ?_⟩
  intro ht hs
  rw [he, ht, hs]

/-- C18 amended, on the token `NO` with `test_string("Yes")`, without `case_sensitive`. -/
theorem C18_test_string_diagnostic_witness :
    (⟨43, "Expected Yes, found NO\n", ""⟩ : Exit)
      = ⟨43, "Expected " ++ lowercase ⟨false, true, ⟨[], true, false⟩, "", 'x'⟩ "Yes"
          ++ ", found " ++ lowercase ⟨false, true, ⟨[], true, false⟩, "", 'x'⟩ "NO" ++ "\n", ""⟩ :=
  (C18_test_string_diagnostic (start false true 'x' "NO".data) "Yes" "NO"
    ⟨false, true, ⟨[], true, false⟩, "", 'x'⟩ ⟨43, "Expected Yes, found NO\n", ""⟩ rfl rfl).1

/-- C19: in `read_long_long()`, either `read_string("integer")` ends the process, and
then `is_int` is not reached, or it returns a token with at least one character, and
`is_int` is applied to exactly that token, whose first character is the one `is_int`
reads first.  The same holds for `read_long_long(low, high)`, which starts with
`read_long_long()`. -/
theorem C19_is_int_on_nonempty_token (v : Validator) :
    (∀ e, read_string v "integer" = Outcome.exit e →
      read_long_long v = Outcome.exit e ∧
      ∀ low high, read_long_long_range v low high = Outcome.exit e) ∧
    (∀ s v1, read_string v "integer" = Outcome.ok s v1 →
      0 < s.length ∧ (∃ c cs, s.data = c :: cs ∧ s.data.headD '\x00' = c) ∧
      read_long_long v =
        match is_int v1 s with
        | Outcome.exit e => Outcome.exit e
        | Outcome.ok _ v2 =>
          match stoll s with
          | Stoll.value x => Outcome.ok x v2
          | Stoll.out_of_range =>
            Outcome.exit (WA v2 ("Number " ++ s ++ " does not fit in a long long!"))
          | Stoll.invalid_argument =>
            Outcome.exit (WA v2 ("Parsing " ++ s ++ " as long long failed!"))) := by
  refine ⟨?_, ?_⟩
  · intro e h
    have h1 : read_long_long v = Outcome.exit e := by
      simp only [read_long_long, h]
    refine ⟨h1, ?_⟩
    intro low high
    simp only [read_long_long_range, h1]
  · intro s v1 h
    obtain ⟨_, c, r, _, _, _, _, hs, _⟩ := read_string_ok_inv v "integer" s v1 h
    refine ⟨Nat.pos_of_ne_zero (read_string_ok_length v "integer" s v1 h), ?_, ?_⟩
    · subst hs
      exact ⟨c, _, rfl, rfl⟩
    · simp only [read_long_long, h]

/-- C19 on the empty stream and on the stream `"7"`, in strict mode. -/
theorem C19_is_int_on_nonempty_token_witness :
    read_long_long (start false true 'x' [])
      = Outcome.exit ⟨43, "Expected integer, found nothing\n", ""⟩ ∧
    0 < ("7" : String).length :=
  ⟨((C19_is_int_on_nonempty_token (start false true 'x' [])).1
      ⟨43, "Expected integer, found nothing\n", ""⟩ rfl).1,
   ((C19_is_int_on_nonempty_token (start false true 'x' "7".data)).2 "7"
      ⟨false, true, ⟨[], true, false⟩, "", 'x'⟩ rfl).1⟩

/-- C20 as stated fails: a returning `space()` or `newline()` writes a line to `cerr`,
in both modes, and a run that ends with status 42 has emitted these lines. -/
theorem C20_space_newline_write_to_cerr :
    space (start false false 'x' [])
      = Outcome.ok () ⟨false, false, ⟨[], false, false⟩, "read space!\n", 'x'⟩ ∧
    newline (start false true 'x' "\n".data)
      = Outcome.ok () ⟨false, true, ⟨[], false, false⟩, "read newline!\n", 'x'⟩ ∧
    run [Op.space, Op.newline] (start false false 'x' [])
      = ([Val.unit, Val.unit], ⟨42, "", "read space!\nread newline!\n"⟩) := by
  decide

/-- C20 amended: a returning `space()` adds exactly the line `read space!` to `cerr` and a
returning `newline()` exactly the line `read newline!`, in both modes, and neither
writes to `cout`.  Over a whole run `cerr` receives these lines, one for each `space()`
and `newline()` that returned, and nothing else; the exit of the run is the exit of a
single call or of the destructor, and a run that ends with status 42 has written
nothing to `cout`. -/
theorem C20_output_of_a_run (v : Validator) :
    (∀ v1, space v = Outcome.ok () v1 → v1.cerr = v.cerr ++ "read space!\n") ∧
    (∀ v1, newline v = Outcome.ok () v1 → v1.cerr = v.cerr ++ "read newline!\n") ∧
    (∀ ops : List Op,
      (run ops v).2.cerr = v.cerr ++ cerr_lines (ops.take (run ops v).1.length)) ∧
    (∀ ops : List Op, ∃ v1, finish v1 = (run ops v).2 ∨
      ∃ op ∈ ops, step op v1 = Outcome.exit (run ops v).2) ∧
    (∀ ops : List Op, (run ops v).2.status = 42 → (run ops v).2.cout = "") := by
  refine ⟨?_, ?_, fun ops => (run_inv ops v).1, fun ops => run_exit_origin ops v, ?_⟩
  · intro v1 h
    have hf := space_framed v
    rw [h] at hf
    exact hf.1
  · intro v1 h
    have hf := newline_framed v
    rw [h] at hf
    exact hf.1
  · intro ops h
    rcases (run_inv ops v).2 with ⟨_, b, _⟩ | a
    · exact b
    · rw [a] at h
      cases h

/-- C20 amended, on `space()` in lenient mode and on the run `space, read_string` on the
stream `" a"`. -/
theorem C20_output_of_a_run_witness :
    (Validator.mk false false ⟨[], false, false⟩ "read space!\n" 'x').cerr
      = (start false false 'x' []).cerr ++ "read space!\n" ∧
    (run [Op.space, Op.read_string "string"] (start false false 'x' " a".data)).2.cout = "" :=
  ⟨(C20_output_of_a_run (start false false 'x' [])).1 _ rfl,
   (C20_output_of_a_run (start false false 'x' " a".data)).2.2.2.2
     [Op.space, Op.read_string "string"] (by decide)⟩

end Validation
